import Mathlib

/-!
# Verification of the context-carry conversation-normalization core

Shallow embedding of the TypeScript sources of `context-carry`
(`src/adapters/base.ts`, `src/adapters/chatgpt.ts`, `src/adapters/types.ts`
(Cowork), the Claude-Web and Claude-Code adapters, and the provider
detector), together with theorems settling the frozen claims C1..C10.

Modelling conventions:
* JavaScript strings are Lean `String`s; `.length`/`.slice` count Lean
  characters where the source counts UTF-16 code units (they agree on the
  ASCII data all claims are about).
* JavaScript numbers are modelled as `Int` (all claims are about integer
  inputs; `NaN`/fractional inputs are outside the embedding).
* A JS value that is `null`/`undefined`/absent is `none`; an empty string
  in a position where the source tests truthiness (`if (x)`, `x || y`) is
  modelled by an explicit `= ""` test, mirroring JS falsiness of `""`.
* Host functions (`Date` parsing and `Date.prototype.toISOString`) are
  modelled by executable Lean functions over epoch milliseconds, with the
  ECMAScript time-value range `|ms| ≤ 8.64e15`; a thrown `RangeError` is
  an `Except.error`.
* `Array.prototype.sort` (guaranteed stable) is modelled by Mathlib's
  `List.insertionSort`, which is a stable sort; a stable sort with a total
  preorder comparator has a unique result, so this is exact.
-/

set_option maxRecDepth 10000

namespace ContextCarry

/-- A JavaScript value as far as `toIsoTimestamp` inspects it:
`null`/`undefined`, a number (restricted to integers in this embedding),
a string, or anything else. -/
inductive JSValue where
  | null : JSValue
  | num : Int → JSValue
  | str : String → JSValue
  | other : JSValue
deriving DecidableEq, Repr

/-- Left-pad the decimal representation of `n` with zeros to `width`. -/
def padNum (width : Nat) (n : Nat) : String :=
  let s := toString n
  if s.length < width then String.mk (List.replicate (width - s.length) '0') ++ s else s

/-- The ECMAScript time-value bound: `Date` holds instants within
±8.64×10¹⁵ milliseconds of the epoch. -/
def maxTimeValue : Nat := 8640000000000000

/-- Model of `Date.prototype.toISOString` on an epoch-milliseconds value
that is within range: proleptic-Gregorian civil date (days-from-epoch
algorithm) rendered as `YYYY-MM-DDTHH:MM:SS.sssZ` (expanded-year form
outside 0000–9999). -/
def renderIso (ms : Int) : String :=
  let days : Int := ms.fdiv 86400000
  let msod : Nat := (ms.fmod 86400000).toNat
  let z : Int := days + 719468
  let era : Int := z.fdiv 146097
  let doe : Nat := (z.fmod 146097).toNat
  let yoe : Nat := (doe - doe / 1460 + doe / 36524 - doe / 146096) / 365
  let doy : Nat := doe - (365 * yoe + yoe / 4 - yoe / 100)
  let mp : Nat := (5 * doy + 2) / 153
  let d : Nat := doy - (153 * mp + 2) / 5 + 1
  let m : Nat := if mp < 10 then mp + 3 else mp - 9
  let y : Int := era * 400 + (yoe : Int) + (if m ≤ 2 then 1 else 0)
  let yearStr :=
    if 0 ≤ y ∧ y ≤ 9999 then padNum 4 y.toNat
    else (if y < 0 then "-" else "+") ++ padNum 6 y.natAbs
  yearStr ++ "-" ++ padNum 2 m ++ "-" ++ padNum 2 d ++ "T" ++
    padNum 2 (msod / 3600000) ++ ":" ++ padNum 2 (msod / 60000 % 60) ++ ":" ++
    padNum 2 (msod / 1000 % 60) ++ "." ++ padNum 3 (msod % 1000) ++ "Z"

/-- Read exactly `n` leading decimal digits, returning their value and the
rest of the characters. -/
def takeDigits (n : Nat) (cs : List Char) : Option (Nat × List Char) :=
  let pre := cs.take n
  if pre.length = n ∧ pre.all Char.isDigit then
    some (pre.foldl (fun acc c => acc * 10 + (c.toNat - 48)) 0, cs.drop n)
  else none

/-- Days in a month of the proleptic Gregorian calendar. -/
def daysInMonth (y m : Nat) : Nat :=
  if m = 2 then (if y % 4 = 0 ∧ (y % 100 ≠ 0 ∨ y % 400 = 0) then 29 else 28)
  else if m = 4 ∨ m = 6 ∨ m = 9 ∨ m = 11 then 30
  else 31

/-- Epoch days of a civil date (years 0–9999, validated months/days). -/
def daysFromCivil (y m d : Nat) : Int :=
  let yi : Int := (y : Int) - (if m ≤ 2 then 1 else 0)
  let era : Int := yi.fdiv 400
  let yoe : Nat := (yi - era * 400).toNat
  let mp : Nat := if m > 2 then m - 3 else m + 9
  let doy : Nat := (153 * mp + 2) / 5 + d - 1
  let doe : Nat := yoe * 365 + yoe / 4 - yoe / 100 + doy
  era * 146097 + (doe : Int) - 719468

/-- Model of the host date-string parser (`new Date(string)`) on the
ISO-8601 subset this repository's data uses: `YYYY-MM-DD`, optionally
followed by `THH:MM[:SS[.sss]]Z`.  Strings outside this subset (including
everything the host would also reject) are `none`, i.e. an Invalid Date. -/
def parseDateString (s : String) : Option Int := do
  let cs := s.toList
  let (y, cs) ← takeDigits 4 cs
  let cs ← (match cs with | '-' :: r => some r | _ => none)
  let (mo, cs) ← takeDigits 2 cs
  let cs ← (match cs with | '-' :: r => some r | _ => none)
  let (d, cs) ← takeDigits 2 cs
  let (h, mi, se, msec) ← (do
    match cs with
    | [] => some (0, 0, 0, 0)
    | 'T' :: r => do
      let (h, r) ← takeDigits 2 r
      let r ← (match r with | ':' :: r2 => some r2 | _ => none)
      let (mi, r) ← takeDigits 2 r
      let (se, msec, r) ← (do
        match r with
        | ':' :: r2 => do
          let (se, r3) ← takeDigits 2 r2
          match r3 with
          | '.' :: r4 => do
            let (msec, r5) ← takeDigits 3 r4
            some (se, msec, r5)
          | _ => some (se, 0, r3)
        | _ => some (0, 0, r))
      if r = ['Z'] then some (h, mi, se, msec) else none
    | _ => none)
  if 1 ≤ mo ∧ mo ≤ 12 ∧ 1 ≤ d ∧ d ≤ daysInMonth y mo ∧ h ≤ 23 ∧ mi ≤ 59 ∧ se ≤ 59 then
    some (daysFromCivil y mo d * 86400000 +
      (h * 3600000 + mi * 60000 + se * 1000 + msec : Nat))
  else none

/-- Embedding of `toIsoTimestamp` (src/adapters/base.ts).  A number above
1e12 is epoch milliseconds, any other number epoch seconds; strings go
through the date parser with epoch-origin fallback; `null`/`undefined`
and non-number/non-string values map to the epoch origin.
`Except.error ()` models the `RangeError` that
`new Date(ms).toISOString()` throws when the derived time value is out of
the representable range. -/
def toIsoTimestamp (value : JSValue) : Except Unit String :=
  match value with
  | .null => .ok (renderIso 0)
  | .num n =>
    let ms : Int := if n > 1000000000000 then n else n * 1000
    if ms.natAbs ≤ maxTimeValue then .ok (renderIso ms) else .error ()
  | .str s =>
    match parseDateString s with
    | some ms => .ok (renderIso ms)
    | none => .ok (renderIso 0)
  | .other => .ok (renderIso 0)

/-- The string-input branch of `toIsoTimestamp`, which never throws. -/
def toIsoOfStr (s : String) : String :=
  match parseDateString s with
  | some ms => renderIso ms
  | none => renderIso 0

/-!
Kernel-computable models of the JS string methods the adapters use
(`trim`, `replace(/\n/g, " ")`, `split(/\s+/)`, `startsWith`), defined
over the character list so every theorem witness can be evaluated. -/

/-- JS `String.prototype.trim`: strip whitespace from both ends. -/
def jsTrim (s : String) : String :=
  String.mk (((s.toList.dropWhile Char.isWhitespace).reverse.dropWhile
    Char.isWhitespace).reverse)

/-- JS `replace(/\n/g, " ")`: every newline becomes a space. -/
def jsNewlinesToSpaces (s : String) : String :=
  String.mk (s.toList.map (fun c => if c = '\n' then ' ' else c))

/-- JS `String.prototype.startsWith`. -/
def jsStartsWith (s pre : String) : Bool :=
  pre.toList.isPrefixOf s.toList

/-- Split a character list at whitespace characters. -/
def splitWs (cs : List Char) : List (List Char) :=
  cs.foldr
    (fun c acc =>
      if c.isWhitespace then [] :: acc
      else
        match acc with
        | t :: rest => (c :: t) :: rest
        | [] => [[c]])
    [[]]

/-- Embedding of `countWords` (src/adapters/base.ts): split on whitespace
runs, drop empty tokens, count the rest.  (Splitting at every whitespace
character and dropping empty tokens yields the same tokens as splitting
on `/\s+/` and dropping empty tokens.) -/
def countWords (text : String) : Nat :=
  if text = "" then 0
  else ((splitWs text.toList).filter (fun w => w ≠ [])).length

/-- The closed `ContentType` union of src/adapters/types.ts. -/
inductive CPType where
  | text | code | image | file | tool_call | tool_result | thinking
deriving DecidableEq, Repr

/-- Embedding of `ContentPart` (src/adapters/types.ts); optional fields are
`Option String`. -/
structure ContentPart where
  type : CPType
  text : Option String := none
  language : Option String := none
  tool_name : Option String := none
  file_name : Option String := none
  mime_type : Option String := none
deriving DecidableEq, Repr

/-- Embedding of `flattenContentToText` (src/adapters/base.ts): map each
part to a line, drop falsy (empty) lines, join with newline. -/
def flattenContentToText (parts : List ContentPart) : String :=
  String.intercalate "\n"
    ((parts.map (fun p =>
      match p.type with
      | .text => p.text.getD ""
      | .thinking => p.text.getD ""
      | .code => p.text.getD ""
      | .tool_call => "[Tool: " ++ (p.tool_name.getD "unknown") ++ "] " ++ (p.text.getD "")
      | .tool_result => "[Result: " ++ (p.tool_name.getD "unknown") ++ "] " ++ (p.text.getD "")
      | .image => "[Image: " ++ (p.file_name.getD "image") ++ "]"
      | .file => "[File: " ++ (p.file_name.getD "file") ++ "]")).filter (fun s => s ≠ ""))

/-- The per-part line of C6's reading of the spec (§4.1): text/thinking/code
emit their verbatim text, tool parts a bracketed label with the tool name
(followed by the part's display text), image/file a bracketed label with
the file name.  Written from the claim's words, for comparison with the
source function. -/
def claimLineC6 (p : ContentPart) : String :=
  match p.type with
  | .text => p.text.getD ""
  | .thinking => p.text.getD ""
  | .code => p.text.getD ""
  | .tool_call => "[Tool: " ++ (p.tool_name.getD "unknown") ++ "] " ++ (p.text.getD "")
  | .tool_result => "[Result: " ++ (p.tool_name.getD "unknown") ++ "] " ++ (p.text.getD "")
  | .image => "[Image: " ++ (p.file_name.getD "image") ++ "]"
  | .file => "[File: " ++ (p.file_name.getD "file") ++ "]"

/-- C6 as written: one line per ContentPart, in order, joined by newline. -/
def claimFlattenC6 (parts : List ContentPart) : String :=
  String.intercalate "\n" (parts.map claimLineC6)

/-- The milliseconds value `toIsoTimestamp` derives from a numeric input:
above 1e12 the number itself (epoch ms), otherwise seconds scaled to ms. -/
def derivedMs (n : Int) : Int :=
  if n > 1000000000000 then n else n * 1000


/-- Stable sort of `l` by `key`, ascending. -/
def sortByKey {α : Type} {κ : Type} [LinearOrder κ] (key : α → κ) (l : List α) : List α :=
  letI : DecidableRel (fun a b : α => key a ≤ key b) :=
    fun a b => inferInstanceAs (Decidable (key a ≤ key b))
  l.insertionSort (fun a b => key a ≤ key b)

/-- The invariant a stable sort guarantees: outputs are ordered by key, and
on equal keys any property `Q` that held of all original-order pairs still
holds of all output-order pairs. -/
def stableRel {α : Type} {κ : Type} [LinearOrder κ] (key : α → κ) (Q : α → α → Prop)
    (a b : α) : Prop :=
  key a ≤ key b ∧ (key a = key b → Q a b)

def canonicalRoles : List String := ["user", "assistant", "system", "tool"]

instance exceptDecEq {ε α : Type} [DecidableEq ε] [DecidableEq α] :
    DecidableEq (Except ε α) := fun a b =>
  match a, b with
  | .error x, .error y =>
    if h : x = y then .isTrue (h ▸ rfl) else .isFalse (fun he => h (Except.error.inj he))
  | .ok x, .ok y =>
    if h : x = y then .isTrue (h ▸ rfl) else .isFalse (fun he => h (Except.ok.inj he))
  | .error _, .ok _ => .isFalse (fun he => Except.noConfusion he)
  | .ok _, .error _ => .isFalse (fun he => Except.noConfusion he)

/-- Embedding of `CanonicalMessage`.  `created_at` carries the result of
the timestamp conversion (`Except.error` when the source would throw);
an absent `is_subagent` is `false` (the source only ever sets `true`). -/
structure CanonicalMessage where
  source_id : String
  role : String
  content : List ContentPart
  text : String
  word_count : Nat
  created_at : Except Unit String
  model : Option String := none
  is_subagent : Bool := false
deriving Repr, DecidableEq

/-- Embedding of `CanonicalConversation`. -/
structure CanonicalConversation where
  source_id : String
  provider : String
  title : String
  created_at : Except Unit String
  updated_at : Option (Except Unit String) := none
  message_count : Nat
  total_words : Nat
  model : Option String := none
  project_source_id : Option String := none
  messages : List CanonicalMessage
deriving Repr, DecidableEq

/-- One step of the `Map`-based model tally: increment in place (insertion
order preserved, as JS `Map` iteration does) or append with count 1. -/
def bumpTally : List (String × Nat) → String → List (String × Nat)
  | [], m => [(m, 1)]
  | (k, c) :: rest, m => if k = m then (k, c + 1) :: rest else (k, c) :: bumpTally rest m

/-- `[...modelCounts.entries()].sort((a, b) => b[1] - a[1])[0]?.[0]`:
stable-sort the tally by descending count and take the first key. -/
def tallyTop (tally : List (String × Nat)) : Option String :=
  ((sortByKey (fun p : String × Nat => -(p.2 : Int)) tally).head?).map Prod.fst

/-!
## Claude-Code and Cowork adapters

The Cowork adapter's `parseUserRecord`/`parseAssistantRecord`
(src/adapters/types.ts) are line-for-line the same as the Claude-Code
adapter's (claude-code.ts), so one embedding serves both.  File reading is
abstracted away: sessions are parsed from already-read record lists, which
is exactly what `parseSession` does after `readJsonl`. -/

/-- One element of a per-line record's `content` array: a plain string, an
object (of which the source only reads string-typed `type`, `text` and
`name` fields; a present but non-string field behaves like an absent one
and is modelled as `none`), or anything else. -/
inductive CCBlock where
  | str : String → CCBlock
  | obj : Option String → Option String → Option String → CCBlock
  | other : CCBlock
deriving DecidableEq, Repr

/-- `message.content` of a per-line record: a string, an array of blocks,
or anything else (including absent). -/
inductive CCContent where
  | str : String → CCContent
  | arr : List CCBlock → CCContent
  | other : CCContent
deriving DecidableEq, Repr

/-- The `message` object of a per-line record (fields the adapters read). -/
structure CCMessageObj where
  content : CCContent
  model : Option String := none
deriving DecidableEq, Repr

/-- A parsed JSONL record (fields the adapters read). -/
structure JsonlRecord where
  type : String
  uuid : Option String := none
  timestamp : Option String := none
  message : Option CCMessageObj := none
deriving DecidableEq, Repr

/-- The `created_at` a Claude-Code/Cowork message gets:
`record.timestamp ? toIsoTimestamp(record.timestamp) : toIsoTimestamp(null)`. -/
def recordCreatedAt (ts : Option String) : Except Unit String :=
  toIsoTimestamp (match ts with
    | some t => if t = "" then JSValue.null else JSValue.str t
    | none => JSValue.null)

/-- Embedding of `parseUserRecord` (claude-code.ts, duplicated in the
Cowork adapter): concatenate string blocks and `text`-typed object blocks,
drop the record when the text is empty or starts with the control-message
marker. -/
def parseUserRecord (r : JsonlRecord) : Option CanonicalMessage :=
  match r.message with
  | none => none
  | some msgObj =>
    let acc : String × List ContentPart :=
      match msgObj.content with
      | .str s => (s, [({ type := CPType.text, text := some s } : ContentPart)])
      | .arr blocks =>
        blocks.foldl (fun (acc : String × List ContentPart) b =>
          match b with
          | .str s => (acc.1 ++ s, acc.2 ++ [{ type := CPType.text, text := some s }])
          | .obj ty btext _ =>
            if ty = some "text" then
              match btext with
              | some t => (acc.1 ++ t, acc.2 ++ [{ type := CPType.text, text := some t }])
              | none => acc
            else acc
          | .other => acc) ("", [])
      | .other => ("", [])
    if acc.1 = "" ∨ jsStartsWith acc.1 "<command-message>" then none
    else some
      { source_id := r.uuid.getD "", role := "user", content := acc.2, text := acc.1,
        word_count := countWords acc.1, created_at := recordCreatedAt r.timestamp }

/-- Embedding of `parseAssistantRecord` (claude-code.ts, duplicated in the
Cowork adapter): nonempty `text` object blocks feed text parts, `tool_use`
blocks become tool_call parts; no usable content expands to zero messages,
otherwise to exactly one aggregate message whose text is the flattened
parts. -/
def parseAssistantRecord (r : JsonlRecord) : List CanonicalMessage :=
  match r.message with
  | none => []
  | some msgObj =>
    match msgObj.content with
    | .arr blocks =>
      let acc := blocks.foldl (fun (acc : List String × List ContentPart) b =>
        match b with
        | .obj ty btext bname =>
          if ty = some "text" then
            match btext with
            | some t =>
              if t = "" then acc
              else (acc.1 ++ [t], acc.2 ++ [{ type := CPType.text, text := some t }])
            | none => acc
          else if ty = some "tool_use" then
            (acc.1, acc.2 ++ [{ type := CPType.tool_call, tool_name := bname }])
          else acc
        | _ => acc) ([], [])
      if acc.1 = [] ∧ acc.2 = [] then []
      else
        let text := flattenContentToText acc.2
        [{ source_id := r.uuid.getD "", role := "assistant", content := acc.2, text,
           word_count := countWords text, created_at := recordCreatedAt r.timestamp,
           model := msgObj.model }]
    | _ => []

/-- The truthy timestamps a record list contributes (`if (timestamp)
timestamps.push(timestamp)`). -/
def collectTimestamps (records : List JsonlRecord) : List String :=
  records.filterMap (fun r =>
    match r.timestamp with
    | some t => if t = "" then none else some t
    | none => none)

/-- The messages one record contributes (only `user`/`assistant` types). -/
def recordMessages (r : JsonlRecord) : List CanonicalMessage :=
  if r.type = "user" then (parseUserRecord r).toList
  else if r.type = "assistant" then parseAssistantRecord r
  else []

/-- The model tally both session parsers accumulate: each parsed message
with a truthy `model` bumps its count (user messages never carry one). -/
def modelTally (msgs : List CanonicalMessage) : List (String × Nat) :=
  msgs.foldl (fun t m =>
    match m.model with
    | some mo => if mo = "" then t else bumpTally t mo
    | none => t) []

/-- `slice(0, 80)`, trim, ellipsis when the original exceeds 80, newlines
to spaces, trim — shared by `inferTitle` (claude-code.ts) and
`inferCoworkTitle` (types.ts). -/
def mkTitle80 (text : String) : String :=
  let t := jsTrim (text.take 80)
  let t := if text.length > 80 then t ++ "..." else t
  jsTrim (jsNewlinesToSpaces t)

/-- Embedding of `inferTitle` (claude-code.ts): first user message with
truthy text. -/
def inferTitle : List CanonicalMessage → String
  | [] => "Untitled Claude Code Session"
  | m :: rest =>
    if m.role = "user" ∧ m.text ≠ "" then mkTitle80 m.text else inferTitle rest

/-- Embedding of `inferCoworkTitle` (types.ts): like `inferTitle` but a
candidate whose trimmed text has length below 10 is passed over. -/
def inferCoworkTitle : List CanonicalMessage → String
  | [] => "Untitled Cowork Session"
  | m :: rest =>
    if m.role = "user" ∧ m.text ≠ "" then
      let content := jsTrim m.text
      if content.length < 10 then inferCoworkTitle rest else mkTitle80 content
    else inferCoworkTitle rest

/-- Embedding of `ClaudeCodeAdapter.parseSession` on an already-read
record list. -/
def parseSessionCC (records : List JsonlRecord) (sessionId projectPath : String) :
    Option CanonicalConversation :=
  if records.length = 0 then none
  else
    let messages := records.flatMap recordMessages
    if messages.length = 0 then none
    else
      let timestamps := collectTimestamps records
      some
        { source_id := sessionId, provider := "claude-code",
          title := inferTitle messages,
          created_at := toIsoTimestamp (match timestamps.head? with
            | some t => JSValue.str t
            | none => JSValue.null),
          updated_at := if timestamps.length > 1 then
              some (toIsoTimestamp (JSValue.str (timestamps.getLastD ""))) else none,
          message_count := messages.length,
          total_words := (messages.map (fun m => m.word_count)).sum,
          model := tallyTop (modelTally messages),
          project_source_id := some projectPath,
          messages }

/-- `CoworkAdapter.processRecords` restricted to the messages it appends:
each message paired with its sort key `timestamp || ""`, subagent-origin
messages tagged `is_subagent = true`. -/
def recordTagged (isSub : Bool) (r : JsonlRecord) : List (CanonicalMessage × String) :=
  (recordMessages r).map (fun m =>
    (if isSub then { m with is_subagent := true } else m, r.timestamp.getD ""))

/-- All tagged messages of one record stream, in stream order. -/
def processTagged (records : List JsonlRecord) (isSub : Bool) :
    List (CanonicalMessage × String) :=
  records.flatMap (recordTagged isSub)

/-- The chronological merge of `CoworkAdapter.parseSession`: main-stream
messages first, then each subagent stream, stably sorted by the raw
timestamp string (`localeCompare`, i.e. lexicographic on these strings). -/
def mergeMessages (main : List JsonlRecord) (subs : List (List JsonlRecord)) :
    List (CanonicalMessage × String) :=
  sortByKey (fun p : CanonicalMessage × String => p.2.toList)
    (processTagged main false ++ subs.flatMap (fun s => processTagged s true))

/-- Embedding of `CoworkAdapter.parseSession` on already-read main and
subagent record lists. -/
def parseSessionCW (main : List JsonlRecord) (subs : List (List JsonlRecord))
    (sessionId projectPath : String) : Option CanonicalConversation :=
  if main.length = 0 then none
  else
    let merged := mergeMessages main subs
    let messages := merged.map Prod.fst
    if messages.length = 0 then none
    else
      let timestamps := sortByKey (fun s : String => s.toList)
        (collectTimestamps main ++ subs.flatMap collectTimestamps)
      some
        { source_id := sessionId, provider := "cowork",
          title := inferCoworkTitle messages,
          created_at := toIsoTimestamp (match timestamps.head? with
            | some t => JSValue.str t
            | none => JSValue.null),
          updated_at := if timestamps.length > 1 then
              some (toIsoTimestamp (JSValue.str (timestamps.getLastD ""))) else none,
          message_count := messages.length,
          total_words := (messages.map (fun m => m.word_count)).sum,
          model := tallyTop (modelTally ((processTagged main false ++
            subs.flatMap (fun s => processTagged s true)).map Prod.fst)),
          project_source_id := some projectPath,
          messages }

/-!
## ChatGPT adapter (src/adapters/chatgpt.ts)

The `mapping` object is modelled as an association list in property order
(JS object keys are unique; `Object.entries`/`in`/indexing are `find?`
on the key).  The unbounded `while (currentId)` cursor loop is modelled
two ways: `walkFrom`/`linearizeDAG` take a fuel bound, and `cursor` gives
the loop's current node id after `n` iterations (`none` once the loop has
exited), so termination itself can be reasoned about. -/

/-- One entry of a raw node's `content.parts` array: a string, an
`image_asset_pointer` object (carrying `metadata?.dalle_metadata_prompt`),
or any other object. -/
inductive RawPart where
  | str : String → RawPart
  | imageAsset : Option String → RawPart
  | other : RawPart
deriving DecidableEq, Repr

/-- A raw message's `content`. -/
structure RawContent where
  content_type : String
  parts : Option (List RawPart) := none
deriving DecidableEq, Repr

/-- The fields of a mapping node's `message` that the adapter reads
(`metadata?.model_slug` is flattened into `model_slug`). -/
structure RawMessage where
  id : String
  role : String
  content : RawContent
  create_time : Option Int := none
  model_slug : Option String := none
deriving DecidableEq, Repr

/-- A DAG node of the `mapping`.  A falsy (absent, null or empty-string)
`parent` is `none`. -/
structure RawNode where
  id : String
  parent : Option String := none
  children : List String
  message : Option RawMessage := none
deriving DecidableEq, Repr

/-- The `mapping` object, in property order. -/
abbrev Mapping := List (String × RawNode)

/-- `mapping[id]` / `id in mapping`. -/
def lookupNode (mapping : Mapping) (id : String) : Option RawNode :=
  (mapping.find? (fun e => e.1 == id)).map Prod.snd

/-- `!node.parent || !(node.parent in mapping)`. -/
def isRootEntry (mapping : Mapping) (e : String × RawNode) : Bool :=
  match e.2.parent with
  | none => true
  | some p => (lookupNode mapping p).isNone

/-- The root-finding loop: first entry whose node has no parent present in
the mapping. -/
def findRoot (mapping : Mapping) : Option String :=
  (mapping.find? (fun e => isRootEntry mapping e)).map Prod.fst

/-- `node.children[node.children.length - 1]`, `undefined` when empty. -/
def lastChild (node : RawNode) : Option String :=
  node.children.getLast?

/-- One iteration of the cursor loop: `none` means the loop has exited
(`currentId` falsy, or `mapping[currentId]` missing and the loop `break`s
on the next test). -/
def stepCursor (mapping : Mapping) : Option String → Option String
  | none => none
  | some id =>
    match lookupNode mapping id with
    | none => none
    | some node => lastChild node

/-- The cursor loop's `currentId` after `n` iterations from the root. -/
def cursor (mapping : Mapping) (n : Nat) : Option String :=
  (stepCursor mapping)^[n] (findRoot mapping)

/-- The node list the cursor loop emits within `fuel` iterations. -/
def walkFrom (mapping : Mapping) : Nat → Option String → List RawNode
  | 0, _ => []
  | _ + 1, none => []
  | fuel + 1, some id =>
    match lookupNode mapping id with
    | none => []
    | some node => node :: walkFrom mapping fuel (lastChild node)

/-- Embedding of `linearizeDAG`, bounded by `fuel` iterations (the source
loop has no bound; see the C10 theorems). -/
def linearizeDAG (mapping : Mapping) (fuel : Nat) : List RawNode :=
  match findRoot mapping with
  | none => []
  | some rootId => walkFrom mapping fuel (some rootId)

/-- Embedding of `extractContent`: `text` keeps strings with truthy
trimmed content, `code` keeps all strings, `multimodal_text` keeps
strings and image-asset pointers (file name from the DALL-E prompt,
defaulting to "image"). -/
def extractContent (content : RawContent) : List ContentPart :=
  if content.content_type = "text" then
    match content.parts with
    | some ps =>
      ps.foldl (fun acc p =>
        match p with
        | RawPart.str s =>
          if jsTrim s = "" then acc else acc ++ [{ type := CPType.text, text := some s }]
        | _ => acc) []
    | none => []
  else if content.content_type = "code" then
    match content.parts with
    | some ps =>
      ps.foldl (fun acc p =>
        match p with
        | RawPart.str s => acc ++ [{ type := CPType.code, text := some s }]
        | _ => acc) []
    | none => []
  else if content.content_type = "multimodal_text" then
    match content.parts with
    | some ps =>
      ps.foldl (fun acc p =>
        match p with
        | RawPart.str s => acc ++ [{ type := CPType.text, text := some s }]
        | RawPart.imageAsset prompt =>
          acc ++ [{ type := CPType.image, file_name := some (prompt.getD "image") }]
        | RawPart.other => acc) []
    | none => []
  else []

/-- A raw ChatGPT conversation (fields the adapter reads). -/
structure RawChatGPTConversation where
  id : String
  title : String
  create_time : Option Int := none
  update_time : Option Int := none
  mapping : Mapping
  gizmo_id : Option String := none
deriving DecidableEq, Repr

/-- `msg.create_time ? toIso(msg.create_time) : toIso(conv.create_time)`
(`0` is falsy). -/
def chatgptCreatedAt (msgCreate convCreate : Option Int) : Except Unit String :=
  toIsoTimestamp
    (match msgCreate with
     | some t =>
       if t = 0 then (match convCreate with | some c => JSValue.num c | none => JSValue.null)
       else JSValue.num t
     | none => (match convCreate with | some c => JSValue.num c | none => JSValue.null))

/-- The message one linearized node contributes in `parseConversation`:
non-canonical roles are skipped, and a node whose flattened text is empty
is dropped unless its role is `system`. -/
def nodeMessage (conv : RawChatGPTConversation) (node : RawNode) : Option CanonicalMessage :=
  match node.message with
  | none => none
  | some msg =>
    if msg.role = "user" ∨ msg.role = "assistant" ∨ msg.role = "system" ∨ msg.role = "tool" then
      let contentParts := extractContent msg.content
      let text := flattenContentToText contentParts
      if text = "" ∧ msg.role ≠ "system" then none
      else some
        { source_id := msg.id, role := msg.role, content := contentParts, text := text,
          word_count := countWords text,
          created_at := chatgptCreatedAt msg.create_time conv.create_time,
          model := msg.model_slug }
    else none

/-- The `modelCounts` tally of `parseConversation`: assistant messages
with a truthy model slug. -/
def chatgptModelTally (msgs : List CanonicalMessage) : List (String × Nat) :=
  msgs.foldl (fun t m =>
    if m.role = "assistant" then
      match m.model with
      | some mo => if mo = "" then t else bumpTally t mo
      | none => t
    else t) []

/-- Embedding of `ChatGPTAdapter.parseConversation` (bounded by `fuel`
like `linearizeDAG`). -/
def parseConversation (conv : RawChatGPTConversation) (fuel : Nat) :
    Option CanonicalConversation :=
  let linearized := linearizeDAG conv.mapping fuel
  if linearized.length = 0 then none
  else
    let messages := linearized.filterMap (nodeMessage conv)
    if messages.length = 0 then none
    else
      some
        { source_id := conv.id, provider := "chatgpt",
          title := if conv.title = "" then "Untitled" else conv.title,
          created_at := toIsoTimestamp
            (match conv.create_time with | some c => JSValue.num c | none => JSValue.null),
          updated_at := match conv.update_time with
            | some t =>
              if t = 0 then none else some (toIsoTimestamp (JSValue.num t))
            | none => none,
          message_count := messages.length,
          total_words := (messages.map (fun m => m.word_count)).sum,
          model := tallyTop (chatgptModelTally messages),
          project_source_id := conv.gizmo_id,
          messages := messages }

/-- A mapping whose children references form a cycle reachable from the
root: the root's last child is the root itself. -/
def cyclicMapping : Mapping :=
  [("r", { id := "r", parent := none, children := ["r"] })]

/-- A user message carrying one plain text part. -/
def mkTextMessage (mid text : String) : RawMessage :=
  { id := mid, role := "user",
    content := { content_type := "text", parts := some [RawPart.str text] } }

/-- A regeneration fork: the root has two children; branch `x` carries
text "X", branch `y` (the last child) carries text "Y". -/
def forkMapping : Mapping :=
  [("root", { id := "root", parent := none, children := ["x", "y"] }),
   ("x", { id := "x", parent := some "root", children := [],
           message := some (mkTextMessage "mx" "X") }),
   ("y", { id := "y", parent := some "root", children := [],
           message := some (mkTextMessage "my" "Y") })]

/-- The fork mapping wrapped in a raw conversation. -/
def forkConv : RawChatGPTConversation :=
  { id := "c1", title := "Fork", mapping := forkMapping }

/-!
## Claude-Web adapter (claude-web.ts)

`content` blocks carry string-typed `type`/`text`/`thinking`/`name`
fields; `input?.title` of a `create_artifact` tool use is flattened into
`inputTitle`.  An absent `content` array is the empty list (`|| []`). -/

/-- One raw content block of a Claude-Web message. -/
structure WebBlock where
  type : String
  text : Option String := none
  thinking : Option String := none
  name : Option String := none
  inputTitle : Option String := none
deriving DecidableEq, Repr

/-- A raw Claude-Web chat message (fields the adapter reads). -/
structure RawClaudeMessage where
  uuid : String
  sender : String
  created_at : String
  content : List WebBlock := []
  text : Option String := none
deriving DecidableEq, Repr

/-- A raw Claude-Web conversation (fields the adapter reads). -/
structure RawClaudeConversation where
  uuid : String
  name : String
  created_at : String
  updated_at : String
  chat_messages : List RawClaudeMessage := []
deriving DecidableEq, Repr

/-- `block.name || "unknown"`. -/
def webToolName : Option String → String
  | some n => if n = "" then "unknown" else n
  | none => "unknown"

/-- `(block.input as ...)?.title || "untitled"`. -/
def webArtifactTitle : Option String → String
  | some t => if t = "" then "untitled" else t
  | none => "untitled"

/-- One iteration of `parseMessage`'s block loop, accumulating
`(textParts, contentParts)`.  (`thinkingParts` is also accumulated by the
source but never read afterwards, so it is not modelled.) -/
def webBlockStep (acc : List String × List ContentPart) (b : WebBlock) :
    List String × List ContentPart :=
  if b.type = "text" then
    match b.text with
    | some t =>
      if t = "" then acc
      else (acc.1 ++ [t], acc.2 ++ [{ type := CPType.text, text := some t }])
    | none => acc
  else if b.type = "thinking" then
    match b.thinking with
    | some t =>
      if t = "" then acc
      else (acc.1, acc.2 ++ [{ type := CPType.thinking, text := some t }])
    | none => acc
  else if b.type = "tool_use" then
    let label := if b.name = some "create_artifact" then
        "[Artifact: " ++ webArtifactTitle b.inputTitle ++ "]"
      else "[Tool: " ++ webToolName b.name ++ "]"
    (acc.1, acc.2 ++ [{ type := CPType.tool_call, tool_name := b.name, text := some label }])
  else if b.type = "tool_result" then
    (acc.1, acc.2 ++ [{ type := CPType.tool_result, tool_name := b.name }])
  else acc

/-- The `(textParts, contentParts)` a message's blocks produce. -/
def webExtract (blocks : List WebBlock) : List String × List ContentPart :=
  blocks.foldl webBlockStep ([], [])

/-- The canonical role of a Claude-Web sender: falsy sender becomes
"unknown", `human` maps to `user`, everything else passes through
verbatim. -/
def webRole (sender : String) : String :=
  let s := if sender = "" then "unknown" else sender
  if s = "human" then "user" else s

/-- Embedding of `ClaudeWebAdapter.parseMessage`. -/
def parseMessageWeb (msgRaw : RawClaudeMessage) : List CanonicalMessage :=
  let acc := webExtract msgRaw.content
  let joined := String.intercalate "\n\n" acc.1
  let primaryText := if joined = "" then msgRaw.text.getD "" else joined
  if primaryText ≠ "" ∨ acc.2.length = 0 then
    let content := if acc.2.length > 0 then acc.2
      else [{ type := CPType.text, text := some primaryText }]
    [{ source_id := msgRaw.uuid, role := webRole msgRaw.sender, content := content,
       text := flattenContentToText content,
       word_count := countWords (flattenContentToText content),
       created_at := Except.ok msgRaw.created_at }]
  else []

/-- Embedding of `ClaudeWebAdapter.parseConversation`.  (`modelCounts` is
declared by the source but never populated, so the primary model is the
top of an empty tally.) -/
def parseConversationWeb (conv : RawClaudeConversation) : Option CanonicalConversation :=
  let messages := conv.chat_messages.flatMap parseMessageWeb
  if messages.length = 0 then none
  else some
    { source_id := conv.uuid, provider := "claude-web",
      title := if conv.name = "" then "Untitled" else conv.name,
      created_at := Except.ok conv.created_at,
      updated_at := some (Except.ok conv.updated_at),
      message_count := messages.length,
      total_words := (messages.map (fun m => m.word_count)).sum,
      model := tallyTop [],
      messages := messages }

/-!
## Provider detection (detect.ts and the four `detect` predicates)

The filesystem is abstracted to the operations the predicates perform:
existence checks, directory listings, `stat().isDirectory()`, and
reading-plus-JSON-parsing a file (`none` models a throw or a parse
failure, which every predicate catches as `false`).  JSON documents are
modelled just deeply enough for the predicates: an array, an object (of
which only the key set is inspected via `in`), or a primitive (on which
`in` throws). -/

/-- A parsed JSON document as far as the detect predicates look. -/
inductive JsonVal where
  | arr : List JsonVal → JsonVal
  | obj : List String → JsonVal
  | prim : JsonVal

/-- The filesystem operations detection performs. -/
structure FS where
  pathExists : String → Bool
  readdir : String → Option (List String)
  statIsDir : String → Option Bool
  jsonFile : String → Option JsonVal

/-- JS `String.prototype.endsWith`. -/
def jsEndsWith (s suf : String) : Bool :=
  suf.toList.isSuffixOf s.toList

/-- `ChatGPTAdapter.detect`: conversations.json parses to a nonempty
array whose first element has a `mapping` key. -/
def chatgptDetect (fs : FS) (path : String) : Bool :=
  match fs.jsonFile (path ++ "/conversations.json") with
  | some (JsonVal.arr (x :: _)) =>
    match x with
    | JsonVal.obj keys => keys.contains "mapping"
    | _ => false
  | _ => false

/-- `ClaudeWebAdapter.detect`: conversations.json exists and parses to a
nonempty array whose first element has `chat_messages` and `uuid` keys. -/
def claudeWebDetect (fs : FS) (path : String) : Bool :=
  if fs.pathExists (path ++ "/conversations.json") = false then false
  else
    match fs.jsonFile (path ++ "/conversations.json") with
    | some (JsonVal.arr (x :: _)) =>
      match x with
      | JsonVal.obj keys => keys.contains "chat_messages" && keys.contains "uuid"
      | _ => false
    | _ => false

/-- `CoworkAdapter.detect`: a `projects` entry with the `-sessions-`
prefix, or (when `projects` is missing) the LAMS directory. -/
def coworkDetect (fs : FS) (path : String) : Bool :=
  if fs.pathExists (path ++ "/projects") = false then
    fs.pathExists (path ++ "/local-agent-mode-sessions")
  else
    match fs.readdir (path ++ "/projects") with
    | some entries => entries.any (fun e => jsStartsWith e "-sessions-")
    | none => false

/-- The entry loop of `ClaudeCodeAdapter.detect`; `none` models a thrown
filesystem error, which the surrounding `try` turns into `false`. -/
def ccDetectGo (fs : FS) (path : String) : List String → Option Bool
  | [] => some false
  | e :: rest =>
    match fs.statIsDir (path ++ "/projects/" ++ e) with
    | none => none
    | some false => ccDetectGo fs path rest
    | some true =>
      match fs.readdir (path ++ "/projects/" ++ e) with
      | none => none
      | some files =>
        if files.any (fun f => jsEndsWith f ".jsonl") then
          if jsStartsWith e "-sessions-" then ccDetectGo fs path rest else some true
        else ccDetectGo fs path rest

/-- `ClaudeCodeAdapter.detect`: some project directory holds a `.jsonl`
log under a slug without the Cowork `-sessions-` prefix. -/
def claudeCodeDetect (fs : FS) (path : String) : Bool :=
  if fs.pathExists (path ++ "/projects") = false then false
  else
    match fs.readdir (path ++ "/projects") with
    | none => false
    | some entries =>
      match ccDetectGo fs path entries with
      | some b => b
      | none => false

/-- `detectProvider` (detect.ts): the fixed adapter order ChatGPT,
Claude-Web, Cowork, Claude-Code; first match wins. -/
def detectProvider (fs : FS) (path : String) : Option String :=
  if chatgptDetect fs path then some "chatgpt"
  else if claudeWebDetect fs path then some "claude-web"
  else if coworkDetect fs path then some "cowork"
  else if claudeCodeDetect fs path then some "claude-code"
  else none

/-- A directory satisfying the ChatGPT, Cowork and Claude-Code predicates
at once: it has a ChatGPT-shaped conversations.json next to a `projects`
directory with both a `-sessions-` slug and a plain slug full of logs. -/
def exFS : FS :=
  { pathExists := fun p => p = "p/projects" || p = "p/conversations.json",
    readdir := fun p =>
      if p = "p/projects" then some ["-sessions-abc", "-Users-x"]
      else if p = "p/projects/-sessions-abc" then some ["a.jsonl"]
      else if p = "p/projects/-Users-x" then some ["b.jsonl"]
      else none,
    statIsDir := fun p =>
      if p = "p/projects/-sessions-abc" ∨ p = "p/projects/-Users-x" then some true
      else none,
    jsonFile := fun p =>
      if p = "p/conversations.json" then some (JsonVal.arr [JsonVal.obj ["mapping"]])
      else none }

/-- A directory satisfying exactly the Cowork and Claude-Code predicates. -/
def exFS2 : FS :=
  { pathExists := fun p => p = "q/projects",
    readdir := fun p =>
      if p = "q/projects" then some ["-sessions-z", "-Users-y"]
      else if p = "q/projects/-sessions-z" then some ["a.jsonl"]
      else if p = "q/projects/-Users-y" then some ["b.jsonl"]
      else none,
    statIsDir := fun p =>
      if p = "q/projects/-sessions-z" ∨ p = "q/projects/-Users-y" then some true
      else none,
    jsonFile := fun _ => none }

/-! ## Theorems -/

theorem pairwise_orderedInsert {α : Type} {κ : Type} [LinearOrder κ] (key : α → κ)
    (Q : α → α → Prop) (x : α) :
    ∀ l : List α, l.Pairwise (stableRel key Q) → (∀ y ∈ l, key x = key y → Q x y) →
      letI : DecidableRel (fun a b : α => key a ≤ key b) :=
        fun a b => inferInstanceAs (Decidable (key a ≤ key b))
      (List.orderedInsert (fun a b => key a ≤ key b) x l).Pairwise (stableRel key Q) := by
  intro l
  induction l with
  | nil =>
    intro _ _
    exact List.pairwise_singleton _ x
  | cons b l ih =>
    intro hl hx
    simp only [List.orderedInsert]
    by_cases hxb : key x ≤ key b
    · rw [if_pos hxb]
      refine List.Pairwise.cons ?_ hl
      intro z hz
      rcases List.mem_cons.mp hz with rfl | hzl
      · exact ⟨hxb, fun he => hx z (List.mem_cons_self _ _) he⟩
      · have hbz : stableRel key Q b z := List.rel_of_pairwise_cons hl hzl
        exact ⟨le_trans hxb hbz.1, fun he => hx z (List.mem_cons_of_mem _ hzl) he⟩
    · rw [if_neg hxb]
      have hbx : key b ≤ key x := le_of_not_le hxb
      refine List.Pairwise.cons ?_ ?_
      · intro z hz
        rcases (List.mem_orderedInsert _).mp hz with rfl | hzl
        · exact ⟨hbx, fun he => absurd (le_of_eq he.symm) hxb⟩
        · exact List.rel_of_pairwise_cons hl hzl
      · exact ih hl.of_cons (fun y hy he => hx y (List.mem_cons_of_mem _ hy) he)

/-- Stable sort preserves key order globally and original order on ties. -/
theorem pairwise_sortByKey {α : Type} {κ : Type} [LinearOrder κ] (key : α → κ)
    (Q : α → α → Prop) :
    ∀ l : List α, l.Pairwise (fun a b => key a = key b → Q a b) →
      (sortByKey key l).Pairwise (stableRel key Q) := by
  intro l
  induction l with
  | nil =>
    intro _
    exact List.Pairwise.nil
  | cons x xs ih =>
    intro h
    have hxs := h.of_cons
    have hsorted := ih hxs
    have := pairwise_orderedInsert key Q x (sortByKey key xs) hsorted
      (fun y hy he => List.rel_of_pairwise_cons h
        ((List.perm_insertionSort _ xs).mem_iff.mp hy) he)
    exact this

theorem sortByKey_perm {α : Type} {κ : Type} [LinearOrder κ] (key : α → κ) (l : List α) :
    (sortByKey key l).Perm l :=
  List.perm_insertionSort _ l

theorem pairwise_true {α : Type} : ∀ l : List α, l.Pairwise (fun _ _ => True)
  | [] => List.Pairwise.nil
  | _ :: l => List.Pairwise.cons (fun _ _ => trivial) (pairwise_true l)

/-- Outputs of `sortByKey` are ordered by key. -/
theorem sortByKey_sorted {α : Type} {κ : Type} [LinearOrder κ] (key : α → κ) (l : List α) :
    (sortByKey key l).Pairwise (fun a b => key a ≤ key b) := by
  have h := pairwise_sortByKey key (fun _ _ => True) l
    ((pairwise_true l).imp (fun _ => fun _ => trivial))
  exact h.imp (fun hab => hab.1)

/-- In a key-ordered list, a strictly smaller key sits at a strictly
earlier position. -/
theorem lt_index_of_key_lt {α : Type} {κ : Type} [LinearOrder κ] {key : α → κ}
    {l : List α} (h : l.Pairwise (fun a b => key a ≤ key b))
    {i j : Fin l.length} (hkey : key (l.get i) < key (l.get j)) : i < j := by
  rcases lt_trichotomy i j with hij | hij | hij
  · exact hij
  · rw [hij] at hkey
    exact absurd hkey (lt_irrefl _)
  · have := List.pairwise_iff_get.mp h j i hij
    exact absurd hkey (not_lt_of_le this)

/-!
## Canonical data model (src/adapters/types.ts)

`Role` and `Provider` are TypeScript union types of string literals, but
the Claude-Web adapter writes an arbitrary sender string into the role
field through a type assertion, so the runtime type of `role` is `String`
and the canonical-role property is stated as membership in the four
literals. -/

/-- The four canonical roles. -/

theorem toIsoTimestamp_num (n : Int) :
    toIsoTimestamp (JSValue.num n) =
      if (derivedMs n).natAbs ≤ maxTimeValue then Except.ok (renderIso (derivedMs n))
      else Except.error () := rfl

theorem toIsoTimestamp_str (s : String) :
    toIsoTimestamp (JSValue.str s) =
      match parseDateString s with
      | some ms => Except.ok (renderIso ms)
      | none => Except.ok (renderIso 0) := rfl

/-- C4 fails as stated: the source promises "never an error", but for a
number whose derived milliseconds exceed the representable `Date` range
(here 10¹⁶, taken as epoch milliseconds) `new Date(ms).toISOString()`
throws a `RangeError`. -/
theorem toIsoTimestamp_throws_on_large_number :
    toIsoTimestamp (JSValue.num (10 ^ 16)) = Except.error () := by
  rw [toIsoTimestamp_num, if_neg]
  decide

/-- C4 (amended): `toIsoTimestamp` returns an instant string on every
null/absent, string, and non-number/non-string input, and on every number
whose derived milliseconds are within the `Date` range; 1700000000
(seconds) and 1700000000000 (milliseconds) normalize to the identical
instant; an unparseable string and an absent value both normalize to the
epoch origin. -/
theorem toIsoTimestamp_spec :
    (toIsoTimestamp JSValue.null = Except.ok (renderIso 0)) ∧
    (toIsoTimestamp JSValue.other = Except.ok (renderIso 0)) ∧
    (∀ s : String, ∃ out, toIsoTimestamp (JSValue.str s) = Except.ok out) ∧
    (∀ s : String, parseDateString s = none →
      toIsoTimestamp (JSValue.str s) = Except.ok (renderIso 0)) ∧
    (∀ n : Int, (derivedMs n).natAbs ≤ maxTimeValue →
      toIsoTimestamp (JSValue.num n) = Except.ok (renderIso (derivedMs n))) ∧
    (toIsoTimestamp (JSValue.num 1700000000) =
      toIsoTimestamp (JSValue.num 1700000000000)) ∧
    (toIsoTimestamp (JSValue.str "not a date") = Except.ok (renderIso 0)) := by
  refine ⟨rfl, rfl, ?_, ?_, ?_, ?_, ?_⟩
  · intro s
    rw [toIsoTimestamp_str]
    cases parseDateString s with
    | none => exact ⟨renderIso 0, rfl⟩
    | some ms => exact ⟨renderIso ms, rfl⟩
  · intro s h
    rw [toIsoTimestamp_str, h]
  · intro n h
    rw [toIsoTimestamp_num, if_pos h]
  · rw [toIsoTimestamp_num, toIsoTimestamp_num]
    norm_num [derivedMs, maxTimeValue]
  · rw [toIsoTimestamp_str]
    have h : parseDateString "not a date" = none := by decide
    rw [h]

/-- Witness for `toIsoTimestamp_spec` at concrete inputs. -/
theorem toIsoTimestamp_spec_witness :
    toIsoTimestamp (JSValue.num 1700000000) =
      Except.ok (renderIso (derivedMs 1700000000)) ∧
    toIsoTimestamp (JSValue.str "nonsense") = Except.ok (renderIso 0) :=
  ⟨toIsoTimestamp_spec.2.2.2.2.1 1700000000 (by decide),
   toIsoTimestamp_spec.2.2.2.1 "nonsense" (by decide)⟩

/-- C6 fails as stated: a text part whose display text is the empty string
emits no line at all (the source filters falsy lines before joining), so
the output is not one line per ContentPart. -/
theorem flattenContentToText_drops_empty_lines :
    flattenContentToText
        [{ type := CPType.text, text := some "a" }, { type := CPType.text, text := some "" }] = "a" ∧
    claimFlattenC6
        [{ type := CPType.text, text := some "a" }, { type := CPType.text, text := some "" }] = "a\n" ∧
    ("a" : String) ≠ "a\n" := by
  refine ⟨by decide, by decide, by decide⟩

/-- C6 (amended): `flattenContentToText` emits, in order, the line of each
ContentPart (verbatim text for text/thinking/code, bracketed tool label
with the tool name for tool_call/tool_result, bracketed file label for
image/file), except that parts whose emitted line is empty contribute no
line; the lines are joined by newline.  When no part's line is empty the
claim holds exactly as stated. -/
theorem flattenContentToText_spec :
    ∀ parts : List ContentPart,
      flattenContentToText parts =
        String.intercalate "\n" ((parts.map claimLineC6).filter (fun s => s ≠ "")) ∧
      ((∀ p ∈ parts, claimLineC6 p ≠ "") →
        flattenContentToText parts = claimFlattenC6 parts) := by
  intro parts
  have hmap : flattenContentToText parts =
      String.intercalate "\n" ((parts.map claimLineC6).filter (fun s => s ≠ "")) := rfl
  refine ⟨hmap, ?_⟩
  intro h
  rw [hmap, claimFlattenC6]
  congr 1
  apply List.filter_eq_self.mpr
  intro a ha
  rcases List.mem_map.mp ha with ⟨p, hp, rfl⟩
  exact decide_eq_true (h p hp)

/-- Witness for `flattenContentToText_spec` at a concrete part list. -/
theorem flattenContentToText_spec_witness :
    flattenContentToText
        [{ type := CPType.text, text := some "hi" },
         { type := CPType.tool_call, tool_name := some "Bash" }] =
      claimFlattenC6
        [{ type := CPType.text, text := some "hi" },
         { type := CPType.tool_call, tool_name := some "Bash" }] :=
  (flattenContentToText_spec _).2 (by decide)

/-! ### Cowork merge (C2) -/

theorem parseUserRecord_is_subagent (r : JsonlRecord) (m : CanonicalMessage)
    (h : parseUserRecord r = some m) : m.is_subagent = false := by
  unfold parseUserRecord at h
  rcases hr : r.message with _ | mo <;> rw [hr] at h
  · exact absurd h (by simp)
  · dsimp only at h
    split at h
    · exact absurd h (by simp)
    · injection h with h'
      subst h'
      rfl

theorem parseAssistantRecord_is_subagent (r : JsonlRecord) (m : CanonicalMessage)
    (h : m ∈ parseAssistantRecord r) : m.is_subagent = false := by
  unfold parseAssistantRecord at h
  rcases hr : r.message with _ | mo <;> rw [hr] at h
  · simp at h
  · dsimp only at h
    rcases hc : mo.content with s | blocks | _ <;> rw [hc] at h <;> dsimp only at h
    · simp at h
    · split at h
      · simp at h
      · rcases List.mem_singleton.mp h with rfl
        rfl
    · simp at h

theorem recordMessages_is_subagent (r : JsonlRecord) (m : CanonicalMessage)
    (h : m ∈ recordMessages r) : m.is_subagent = false := by
  unfold recordMessages at h
  split at h
  · rcases hu : parseUserRecord r with _ | m' <;> rw [hu] at h
    · simp at h
    · rcases List.mem_singleton.mp h with rfl
      exact parseUserRecord_is_subagent r _ hu
  · split at h
    · exact parseAssistantRecord_is_subagent r m h
    · simp at h

theorem processTagged_main_not_subagent (rs : List JsonlRecord)
    (p : CanonicalMessage × String) (h : p ∈ processTagged rs false) :
    p.1.is_subagent = false := by
  rcases List.mem_flatMap.mp h with ⟨r, _, hp⟩
  rcases List.mem_map.mp hp with ⟨m, hm, rfl⟩
  exact recordMessages_is_subagent r m hm

theorem processTagged_sub_subagent (rs : List JsonlRecord)
    (p : CanonicalMessage × String) (h : p ∈ processTagged rs true) :
    p.1.is_subagent = true := by
  rcases List.mem_flatMap.mp h with ⟨r, _, hp⟩
  rcases List.mem_map.mp hp with ⟨m, _, rfl⟩
  rfl

/-- C2: the Cowork merge produces one sequence sorted by the raw timestamp
string (lexicographically); subagent-origin messages are tagged and
main-origin ones are not; the merge is a permutation of main-then-subagent
processing; on equal timestamp strings no subagent message precedes a
main-log message; a message with a strictly smaller timestamp string sits
at a strictly earlier position; and `parseSession`'s message list is
exactly this merge. -/
theorem cowork_merge_spec (main : List JsonlRecord) (subs : List (List JsonlRecord)) :
    (mergeMessages main subs).Pairwise
      (fun a b : CanonicalMessage × String => a.2.toList ≤ b.2.toList) ∧
    (mergeMessages main subs).Pairwise
      (fun a b : CanonicalMessage × String =>
        a.2 = b.2 → a.1.is_subagent = true → b.1.is_subagent = true) ∧
    (mergeMessages main subs).Perm
      (processTagged main false ++ subs.flatMap (fun s => processTagged s true)) ∧
    (∀ p ∈ processTagged main false, p.1.is_subagent = false) ∧
    (∀ s ∈ subs, ∀ p ∈ processTagged s true, p.1.is_subagent = true) ∧
    (∀ i j : Fin (mergeMessages main subs).length,
      ((mergeMessages main subs).get i).2.toList < ((mergeMessages main subs).get j).2.toList →
      i < j) ∧
    (∀ sid pp conv, parseSessionCW main subs sid pp = some conv →
      conv.messages = (mergeMessages main subs).map Prod.fst) := by
  set Q : (CanonicalMessage × String) → (CanonicalMessage × String) → Prop :=
    fun a b => a.1.is_subagent = true → b.1.is_subagent = true with hQ
  have hin : (processTagged main false ++
      subs.flatMap (fun s => processTagged s true)).Pairwise Q := by
    rw [List.pairwise_append]
    refine ⟨?_, ?_, ?_⟩
    · apply List.pairwise_of_forall_mem_list
      intro a ha b _ hsub
      rw [processTagged_main_not_subagent main a ha] at hsub
      exact absurd hsub (by simp)
    · apply List.pairwise_of_forall_mem_list
      intro a _ b hb _
      rcases List.mem_flatMap.mp hb with ⟨s, _, hb'⟩
      exact processTagged_sub_subagent s b hb'
    · intro a _ b hb _
      rcases List.mem_flatMap.mp hb with ⟨s, _, hb'⟩
      exact processTagged_sub_subagent s b hb'
  have hin' : (processTagged main false ++
      subs.flatMap (fun s => processTagged s true)).Pairwise
      (fun a b => a.2.toList = b.2.toList → Q a b) := by
    refine hin.imp ?_
    intro a b hab _
    exact hab
  have hstable := pairwise_sortByKey (fun p : CanonicalMessage × String => p.2.toList) Q
    (processTagged main false ++ subs.flatMap (fun s => processTagged s true)) hin'
  have hsorted : (mergeMessages main subs).Pairwise
      (fun a b : CanonicalMessage × String => a.2.toList ≤ b.2.toList) :=
    hstable.imp (fun hab => hab.1)
  refine ⟨hsorted, ?_, ?_, ?_, ?_, ?_, ?_⟩
  · exact hstable.imp (fun hab he => hab.2 (congrArg String.toList he))
  · exact sortByKey_perm _ _
  · exact fun p hp => processTagged_main_not_subagent main p hp
  · exact fun s _ p hp => processTagged_sub_subagent s p hp
  · exact fun i j hij => lt_index_of_key_lt hsorted hij
  · intro sid pp conv h
    unfold parseSessionCW at h
    split at h
    · exact absurd h (by simp)
    · dsimp only at h
      split at h
      · exact absurd h (by simp)
      · injection h with h'
        subst h'
        rfl

/-- Witness for `cowork_merge_spec`: a subagent message one timestamp
earlier appears first, and on an equal timestamp the main-log message
appears first. -/
theorem cowork_merge_spec_witness :
    (mergeMessages
        [{ type := "user", uuid := some "m1", timestamp := some "2024-01-02T00:00:00Z",
           message := some { content := CCContent.str "hello from main" } }]
        [[{ type := "user", uuid := some "s1", timestamp := some "2024-01-01T00:00:00Z",
            message := some { content := CCContent.str "hello from subagent" } }]]).Pairwise
      (fun a b : CanonicalMessage × String => a.2.toList ≤ b.2.toList) ∧
    (mergeMessages
        [{ type := "user", uuid := some "m1", timestamp := some "2024-01-02T00:00:00Z",
           message := some { content := CCContent.str "hello from main" } }]
        [[{ type := "user", uuid := some "s1", timestamp := some "2024-01-01T00:00:00Z",
            message := some { content := CCContent.str "hello from subagent" } }]]).map
      (fun p => (p.1.source_id, p.1.is_subagent)) = [("s1", true), ("m1", false)] ∧
    (mergeMessages
        [{ type := "user", uuid := some "m2", timestamp := some "2024-01-01T00:00:00Z",
           message := some { content := CCContent.str "tie main" } }]
        [[{ type := "user", uuid := some "s2", timestamp := some "2024-01-01T00:00:00Z",
            message := some { content := CCContent.str "tie subagent" } }]]).map
      (fun p => (p.1.source_id, p.1.is_subagent)) = [("m2", false), ("s2", true)] :=
  ⟨(cowork_merge_spec _ _).1, by decide, by decide⟩

/-! ### Cowork title inference (C9) -/

/-- The condition under which `inferCoworkTitle` accepts a message as the
title candidate: user role, truthy text, trimmed length at least 10. -/
def coworkTitleQualifies (m : CanonicalMessage) : Prop :=
  m.role = "user" ∧ m.text ≠ "" ∧ 10 ≤ (jsTrim m.text).length

instance (m : CanonicalMessage) : Decidable (coworkTitleQualifies m) := by
  unfold coworkTitleQualifies
  infer_instance

/-- C9 fails as stated: a user message whose trimmed text has exactly 10
characters does not exceed 10 characters, yet it is taken as the title
(the source passes over candidates with `length < 10` only). -/
theorem inferCoworkTitle_accepts_length_ten :
    (jsTrim ("abcdefghij" : String)).length = 10 ∧
    inferCoworkTitle
        [{ source_id := "x", role := "user", content := [], text := "abcdefghij",
           word_count := 1, created_at := Except.ok (renderIso 0) }] = "abcdefghij" ∧
    inferCoworkTitle
        [{ source_id := "x", role := "user", content := [], text := "abcdefghij",
           word_count := 1, created_at := Except.ok (renderIso 0) }] ≠
      "Untitled Cowork Session" := by
  refine ⟨by decide, by decide, by decide⟩

/-- C9 (amended): the title comes from the first user message whose
trimmed truthy text has length at least 10 (truncated to 80 characters
with an ellipsis when longer, newlines collapsed to spaces); every
message that does not qualify is passed over, and when none qualifies the
fixed placeholder is returned. -/
theorem inferCoworkTitle_spec :
    (∀ msgs : List CanonicalMessage, (∀ m ∈ msgs, ¬ coworkTitleQualifies m) →
      inferCoworkTitle msgs = "Untitled Cowork Session") ∧
    (∀ (pre : List CanonicalMessage) (m : CanonicalMessage)
        (post : List CanonicalMessage),
      (∀ p ∈ pre, ¬ coworkTitleQualifies p) → coworkTitleQualifies m →
      inferCoworkTitle (pre ++ m :: post) = mkTitle80 (jsTrim m.text)) := by
  constructor
  · intro msgs
    induction msgs with
    | nil => intro _; rfl
    | cons m rest ih =>
      intro h
      have hm := h m (List.mem_cons_self _ _)
      unfold inferCoworkTitle
      split
      · rename_i hrole
        rw [if_pos ?_]
        · exact ih (fun p hp => h p (List.mem_cons_of_mem _ hp))
        · by_contra hlen
          exact hm ⟨hrole.1, hrole.2, le_of_not_lt hlen⟩
      · exact ih (fun p hp => h p (List.mem_cons_of_mem _ hp))
  · intro pre m post hpre hm
    induction pre with
    | nil =>
      unfold inferCoworkTitle
      rw [List.nil_append]
      dsimp only
      rw [if_pos ⟨hm.1, hm.2.1⟩, if_neg (not_lt_of_le hm.2.2)]
    | cons p pre' ih =>
      have hp := hpre p (List.mem_cons_self _ _)
      have ih' := ih (fun q hq => hpre q (List.mem_cons_of_mem _ hq))
      rw [List.cons_append]
      unfold inferCoworkTitle
      split
      · rename_i hrole
        rw [if_pos ?_]
        · exact ih'
        · by_contra hlen
          exact hp ⟨hrole.1, hrole.2, le_of_not_lt hlen⟩
      · exact ih'

/-! ### ChatGPT linearization (C1, C10) -/

theorem walkFrom_none (mapping : Mapping) : ∀ fuel, walkFrom mapping fuel none = [] := by
  intro fuel
  cases fuel <;> rfl

theorem iterate_stepCursor_none (mapping : Mapping) :
    ∀ k, (stepCursor mapping)^[k] none = none := by
  intro k
  induction k with
  | zero => rfl
  | succ n ih => rw [Function.iterate_succ_apply, stepCursor, ih]

theorem stepCursor_some (mapping : Mapping) (id : String) (node : RawNode)
    (h : lookupNode mapping id = some node) :
    stepCursor mapping (some id) = lastChild node := by
  simp [stepCursor, h]

/-- Adjacency relation of the emitted node list: the next node is looked
up at the previous node's last child id. -/
def childStep (mapping : Mapping) (a b : RawNode) : Prop :=
  ∃ cid, lastChild a = some cid ∧ lookupNode mapping cid = some b

theorem walkFrom_head (mapping : Mapping) :
    ∀ (fuel : Nat) (cur : Option String) (b : RawNode),
      (walkFrom mapping fuel cur).head? = some b →
      ∃ cid, cur = some cid ∧ lookupNode mapping cid = some b := by
  intro fuel cur b h
  match fuel, cur with
  | 0, _ => simp [walkFrom] at h
  | f + 1, none => simp [walkFrom] at h
  | f + 1, some id =>
    simp only [walkFrom] at h
    rcases hl : lookupNode mapping id with _ | node <;> rw [hl] at h
    · simp at h
    · dsimp only at h
      injection h with h'
      exact ⟨id, rfl, by rw [hl, h']⟩

theorem walkFrom_chain (mapping : Mapping) :
    ∀ (fuel : Nat) (cur : Option String),
      (walkFrom mapping fuel cur).Chain' (childStep mapping) := by
  intro fuel
  induction fuel with
  | zero =>
    intro cur
    simp [walkFrom]
  | succ f ih =>
    intro cur
    cases cur with
    | none => simp [walkFrom]
    | some id =>
      simp only [walkFrom]
      rcases hl : lookupNode mapping id with _ | node
      · simp
      · dsimp only
        rw [List.chain'_cons']
        exact ⟨fun b hb => walkFrom_head mapping f (lastChild node) b hb, ih (lastChild node)⟩

/-- Every child id referenced anywhere in the mapping is itself a key. -/
def wfChildren (mapping : Mapping) : Prop :=
  ∀ e ∈ mapping, ∀ cid ∈ e.2.children, (lookupNode mapping cid).isSome

theorem lookupNode_mem (mapping : Mapping) (id : String) (node : RawNode)
    (h : lookupNode mapping id = some node) : ∃ e ∈ mapping, e.2 = node := by
  unfold lookupNode at h
  rcases hf : mapping.find? (fun e => e.1 == id) with _ | e <;> rw [hf] at h
  · simp at h
  · simp only [Option.map_some'] at h
    injection h with h2
    exact ⟨e, List.mem_of_find?_eq_some hf, h2⟩

theorem mem_of_getLast?_eq {α : Type} (l : List α) (a : α) (h : l.getLast? = some a) :
    a ∈ l := by
  rcases List.mem_getLast?_eq_getLast (show a ∈ l.getLast? from h) with ⟨hne, rfl⟩
  exact List.getLast_mem hne

theorem walkFrom_last_no_children (mapping : Mapping) (hwf : wfChildren mapping) :
    ∀ (fuel : Nat) (cur : Option String) (last : RawNode),
      (walkFrom mapping fuel cur).length < fuel →
      (walkFrom mapping fuel cur).getLast? = some last → last.children = [] := by
  intro fuel
  induction fuel with
  | zero =>
    intro cur last h
    exact absurd h (Nat.not_lt_zero _)
  | succ f ih =>
    intro cur last hlen hlast
    cases cur with
    | none => simp [walkFrom] at hlast
    | some id =>
      simp only [walkFrom] at hlen hlast
      rcases hl : lookupNode mapping id with _ | node
      · rw [hl] at hlast
        simp at hlast
      · rw [hl] at hlen hlast
        dsimp only at hlen hlast
        rcases hrest : walkFrom mapping f (lastChild node) with _ | ⟨n2, rest2⟩ <;>
          rw [hrest] at hlen hlast
        · have hln : node = last := by
            simpa using hlast
          subst hln
          rcases hc : List.getLast? node.children with _ | cid
          · exact List.getLast?_eq_none_iff.mp hc
          · exfalso
            have hcid : cid ∈ node.children := mem_of_getLast?_eq _ _ hc
            rcases lookupNode_mem mapping id node hl with ⟨e, he, he2⟩
            have hs := hwf e he cid (by rw [he2]; exact hcid)
            rcases Option.isSome_iff_exists.mp hs with ⟨nodeC, hnc⟩
            have hf1 : 0 < f := by
              simpa using hlen
            rcases Nat.exists_eq_add_of_lt hf1 with ⟨k, rfl⟩
            have hlc : lastChild node = some cid := hc
            rw [hlc, show (0 + k + 1) = k + 1 from by omega] at hrest
            simp only [walkFrom] at hrest
            rw [hnc] at hrest
            simp at hrest
        · rw [List.getLast?_cons_cons] at hlast
          have hlen' : (walkFrom mapping f (lastChild node)).length < f := by
            rw [hrest]
            simpa using hlen
          have hlast' : (walkFrom mapping f (lastChild node)).getLast? = some last := by
            rw [hrest]
            exact hlast
          exact ih (lastChild node) last hlen' hlast'

/-- C1: linearization and skip-on-no-root.  A mapping has no root exactly
when every entry's parent is present; then linearization is empty and
`parseConversation` returns `null`.  With a root, the emitted list starts
at the root's node, consecutive emitted nodes always follow the last
child, and (in a mapping whose child references resolve) a run that ends
with fuel to spare ends at a childless node.  At the concrete fork, the
parsed conversation's text contains "Y" (the last child's branch) and not
"X". -/
theorem chatgpt_linearization_spec :
    (∀ mapping : Mapping,
      (findRoot mapping = none ↔ ∀ e ∈ mapping, isRootEntry mapping e = false)) ∧
    (∀ (mapping : Mapping) (fuel : Nat), findRoot mapping = none →
      linearizeDAG mapping fuel = []) ∧
    (∀ (conv : RawChatGPTConversation) (fuel : Nat), findRoot conv.mapping = none →
      parseConversation conv fuel = none) ∧
    (∀ (mapping : Mapping) (fuel : Nat) (root : String),
      findRoot mapping = some root → 0 < fuel →
      (linearizeDAG mapping fuel).head? = lookupNode mapping root) ∧
    (∀ (mapping : Mapping) (fuel : Nat),
      (linearizeDAG mapping fuel).Chain' (childStep mapping)) ∧
    (∀ (mapping : Mapping) (fuel : Nat) (last : RawNode), wfChildren mapping →
      (linearizeDAG mapping fuel).length < fuel →
      (linearizeDAG mapping fuel).getLast? = some last → last.children = []) ∧
    ((parseConversation forkConv 10).map (fun c => c.messages.map (fun m => m.text)) =
      some ["Y"]) := by
  refine ⟨?_, ?_, ?_, ?_, ?_, ?_, by decide⟩
  · intro mapping
    unfold findRoot
    rw [Option.map_eq_none']
    rw [List.find?_eq_none]
    constructor
    · intro h e he
      exact Bool.eq_false_iff.mpr (h e he)
    · intro h e he
      rw [h e he]
      simp
  · intro mapping fuel h
    unfold linearizeDAG
    rw [h]
  · intro conv fuel h
    unfold parseConversation
    have hlin : linearizeDAG conv.mapping fuel = [] := by
      unfold linearizeDAG
      rw [h]
    rw [hlin]
    rfl
  · intro mapping fuel root h hf
    unfold linearizeDAG
    rw [h]
    rcases Nat.exists_eq_add_of_lt hf with ⟨k, rfl⟩
    rw [show 0 + k + 1 = k + 1 from by omega]
    simp only [walkFrom]
    rcases hl : lookupNode mapping root with _ | node <;> rfl
  · intro mapping fuel
    unfold linearizeDAG
    rcases h : findRoot mapping with _ | root
    · simp
    · exact walkFrom_chain mapping fuel (some root)
  · intro mapping fuel last hwf hlen hlast
    unfold linearizeDAG at hlen hlast
    rcases h : findRoot mapping with _ | root <;> rw [h] at hlen hlast
    · simp at hlast
    · exact walkFrom_last_no_children mapping hwf fuel (some root) last hlen hlast

/-- Witness for `chatgpt_linearization_spec` at concrete inputs: a
two-node mapping whose parents are mutually present has no root, so its
conversation parses to `null`; at the fork, the walk starts at the root
node. -/
theorem chatgpt_linearization_spec_witness :
    parseConversation
        { id := "c2", title := "NoRoot",
          mapping := [("a", { id := "a", parent := some "b", children := ["b"] }),
                      ("b", { id := "b", parent := some "a", children := ["a"] })] } 7 =
      none ∧
    (linearizeDAG forkMapping 10).head? = lookupNode forkMapping "root" :=
  ⟨chatgpt_linearization_spec.2.2.1 _ 7 (by decide),
   chatgpt_linearization_spec.2.2.2.1 forkMapping 10 "root" (by decide) (by decide)⟩

/-- C10 fails as stated: on a mapping whose children form a cycle
reachable from the root, the cursor loop never exits (the source tracks
no visited set), so linearization does not terminate. -/
theorem chatgpt_cursor_nonterminating :
    (∀ n : Nat, cursor cyclicMapping n = some "r") ∧
    ¬ ∃ n : Nat, cursor cyclicMapping n = none := by
  have h : ∀ n : Nat, cursor cyclicMapping n = some "r" := by
    intro n
    induction n with
    | zero => rfl
    | succ k ih =>
      have hs : cursor cyclicMapping (k + 1) =
          stepCursor cyclicMapping (cursor cyclicMapping k) :=
        Function.iterate_succ_apply' _ _ _
      rw [hs, ih]
      rfl
  refine ⟨h, ?_⟩
  rintro ⟨n, hn⟩
  rw [h n] at hn
  exact Option.noConfusion hn

theorem walkFrom_stable (mapping : Mapping) :
    ∀ (n : Nat) (cur : Option String), (stepCursor mapping)^[n] cur = none →
      ∀ fuel, n ≤ fuel → walkFrom mapping fuel cur = walkFrom mapping n cur := by
  intro n
  induction n with
  | zero =>
    intro cur hc fuel _
    rw [Function.iterate_zero_apply] at hc
    subst hc
    rw [walkFrom_none]
    rfl
  | succ k ih =>
    intro cur hc fuel hf
    cases cur with
    | none => rw [walkFrom_none, walkFrom_none]
    | some id =>
      rcases Nat.exists_eq_add_of_le hf with ⟨d, rfl⟩
      have hfe : k + 1 + d = (k + d) + 1 := by omega
      rw [hfe]
      simp only [walkFrom]
      rcases hl : lookupNode mapping id with _ | node
      · rfl
      · dsimp only
        have hstep : (stepCursor mapping)^[k] (lastChild node) = none := by
          rw [← stepCursor_some mapping id node hl, ← Function.iterate_succ_apply]
          exact hc
        rw [ih (lastChild node) hstep (k + d) (Nat.le_add_right k d)]

theorem cursor_none_mono (mapping : Mapping) (i j : Nat) (hij : i ≤ j)
    (hi : cursor mapping i = none) : cursor mapping j = none := by
  rcases Nat.exists_eq_add_of_le hij with ⟨d, rfl⟩
  unfold cursor at *
  rw [Nat.add_comm i d, Function.iterate_add_apply, hi, iterate_stepCursor_none]

theorem cursor_some_mem (mapping : Mapping) (i : Nat)
    (h : cursor mapping (i + 1) ≠ none) (id : String)
    (hid : cursor mapping i = some id) : id ∈ mapping.map Prod.fst := by
  have hstep : cursor mapping (i + 1) = stepCursor mapping (cursor mapping i) :=
    Function.iterate_succ_apply' _ _ _
  rw [hstep, hid] at h
  rcases hl : lookupNode mapping id with _ | node
  · rw [show stepCursor mapping (some id) = none from by simp [stepCursor, hl]] at h
    exact absurd rfl h
  · unfold lookupNode at hl
    rcases hf : mapping.find? (fun e => e.1 == id) with _ | e <;> rw [hf] at hl
    · simp at hl
    · have he : e ∈ mapping := List.mem_of_find?_eq_some hf
      have hpe : e.1 = id := by
        have := List.find?_some hf
        simpa using this
      exact List.mem_map.mpr ⟨e, he, hpe⟩

/-- C10 (amended): the cursor loop terminates exactly when the cursor
reaches `none`, and then linearization is stable under any larger fuel
(a finite list); but the loop need not terminate: after
`mapping.length + 1` iterations the cursor has either exited or revisited
a node id (pigeonhole), and on a cyclic mapping it runs forever
(`chatgpt_cursor_nonterminating`). -/
theorem chatgpt_cursor_spec :
    (∀ (mapping : Mapping) (n : Nat), cursor mapping n = none →
      ∀ fuel, n ≤ fuel → linearizeDAG mapping fuel = linearizeDAG mapping n) ∧
    (∀ mapping : Mapping, (mapping.map Prod.fst).Nodup →
      cursor mapping (mapping.length + 1) ≠ none →
      ∃ i j : Nat, i < j ∧ j ≤ mapping.length ∧
        cursor mapping i = cursor mapping j ∧ cursor mapping i ≠ none) := by
  constructor
  · intro mapping n hc fuel hf
    unfold linearizeDAG
    rcases hr : findRoot mapping with _ | root
    · rfl
    · unfold cursor at hc
      rw [hr] at hc
      exact walkFrom_stable mapping n (some root) hc fuel hf
  · intro mapping hnd hne
    have hnone : ∀ m, m ≤ mapping.length + 1 → cursor mapping m ≠ none := by
      intro m hm hmn
      exact hne (cursor_none_mono mapping m (mapping.length + 1) hm hmn)
    have hmem : ∀ i : Fin (mapping.length + 1),
        (cursor mapping i.val).iget ∈ (mapping.map Prod.fst).toFinset := by
      intro i
      have hi : cursor mapping i.val ≠ none :=
        hnone i.val (by omega)
      rcases Option.ne_none_iff_exists'.mp hi with ⟨id, hid⟩
      have hi1 : cursor mapping (i.val + 1) ≠ none :=
        hnone (i.val + 1) (by omega)
      have := cursor_some_mem mapping i.val hi1 id hid
      rw [hid]
      simpa using this
    have hcard : ((mapping.map Prod.fst).toFinset).card <
        (Finset.univ : Finset (Fin (mapping.length + 1))).card := by
      rw [List.toFinset_card_of_nodup hnd, Finset.card_univ, Fintype.card_fin,
        List.length_map]
      omega
    rcases Finset.exists_ne_map_eq_of_card_lt_of_maps_to hcard
      (fun i _ => hmem i) with ⟨i, _, j, _, hij, hfe⟩
    have hcij : cursor mapping i.val = cursor mapping j.val := by
      rcases Option.ne_none_iff_exists'.mp (hnone i.val (by omega)) with ⟨idi, hidi⟩
      rcases Option.ne_none_iff_exists'.mp (hnone j.val (by omega)) with ⟨idj, hidj⟩
      rw [hidi, hidj] at hfe ⊢
      simpa using hfe
    rcases lt_trichotomy i.val j.val with hlt | heq | hgt
    · exact ⟨i.val, j.val, hlt, by omega, hcij, hnone i.val (by omega)⟩
    · exact absurd (Fin.ext heq) hij
    · exact ⟨j.val, i.val, hgt, by omega, hcij.symm, hnone j.val (by omega)⟩

/-- Witness for `chatgpt_cursor_spec`: on a single childless node the
cursor exits after one step and linearization is stable at any fuel. -/
theorem chatgpt_cursor_spec_witness :
    linearizeDAG [("a", { id := "a", children := [] })] 5 =
      linearizeDAG [("a", { id := "a", children := [] })] 1 :=
  chatgpt_cursor_spec.1 [("a", { id := "a", children := [] })] 1 (by decide) 5 (by decide)

/-- Witness for `inferCoworkTitle_spec`: a short user message is passed
over and the next qualifying one provides the title. -/
theorem inferCoworkTitle_spec_witness :
    inferCoworkTitle
        [{ source_id := "a", role := "user", content := [], text := "short",
           word_count := 1, created_at := Except.ok (renderIso 0) },
         { source_id := "b", role := "user", content := [], text := "a sufficiently long message",
           word_count := 4, created_at := Except.ok (renderIso 0) }] =
      mkTitle80 (jsTrim "a sufficiently long message") :=
  inferCoworkTitle_spec.2
    [{ source_id := "a", role := "user", content := [], text := "short",
       word_count := 1, created_at := Except.ok (renderIso 0) }]
    { source_id := "b", role := "user", content := [], text := "a sufficiently long message",
      word_count := 4, created_at := Except.ok (renderIso 0) }
    [] (by decide) (by decide)

/-! ### Claude-Web message emission (C3) -/

/-- A block that feeds `textParts`: a `text` block with truthy text. -/
def textishBlock (b : WebBlock) : Prop :=
  b.type = "text" ∧ b.text ≠ none ∧ b.text ≠ some ""

instance (b : WebBlock) : Decidable (textishBlock b) := by
  unfold textishBlock
  infer_instance

theorem webBlockStep_fst (acc : List String × List ContentPart) (b : WebBlock)
    (h : ¬ textishBlock b) : (webBlockStep acc b).1 = acc.1 := by
  unfold webBlockStep
  split
  · rename_i ht
    rcases hb : b.text with _ | t
    · rfl
    · dsimp only
      split
      · rfl
      · rename_i hne
        apply absurd ?_ h
        refine ⟨ht, ?_, ?_⟩
        · rw [hb]
          exact fun hc => Option.noConfusion hc
        · rw [hb]
          intro hc
          exact hne (Option.some.inj hc)
  · split
    · rcases hb : b.thinking with _ | t
      · rfl
      · dsimp only
        split <;> rfl
    · split
      · rfl
      · split <;> rfl

theorem webExtract_fst_nil (blocks : List WebBlock)
    (h : ∀ b ∈ blocks, ¬ textishBlock b) : (webExtract blocks).1 = [] := by
  suffices hgen : ∀ acc : List String × List ContentPart,
      (blocks.foldl webBlockStep acc).1 = acc.1 by
    exact hgen ([], [])
  induction blocks with
  | nil => intro acc; rfl
  | cons b rest ih =>
    intro acc
    rw [List.foldl_cons]
    rw [ih (fun x hx => h x (List.mem_cons_of_mem _ hx))]
    exact webBlockStep_fst acc b (h b (List.mem_cons_self _ _))

/-- C3 fails as stated: a Claude-Web message whose content has no text
blocks but does have a `tool_use` block (and no top-level `text` field)
is dropped, not emitted. -/
theorem claude_web_drops_blocks_only_message :
    parseMessageWeb
      { uuid := "u1", sender := "assistant", created_at := "c",
        content := [{ type := "tool_use", name := some "t" }] } = [] := by decide

/-- C3 (amended): a message with no truthy text blocks but at least one
other recognized block is emitted only when its top-level `text` field is
truthy; when emitted, its content is exactly the non-text parts and its
flattened text derives from those parts alone (bracket labels for tool
parts, verbatim text for thinking parts). -/
theorem claude_web_no_text_blocks_spec :
    ∀ msgRaw : RawClaudeMessage,
      (∀ b ∈ msgRaw.content, ¬ textishBlock b) →
      (webExtract msgRaw.content).2 ≠ [] →
      ((msgRaw.text.getD "" = "" → parseMessageWeb msgRaw = []) ∧
       (msgRaw.text.getD "" ≠ "" →
         parseMessageWeb msgRaw =
           [{ source_id := msgRaw.uuid, role := webRole msgRaw.sender,
              content := (webExtract msgRaw.content).2,
              text := flattenContentToText (webExtract msgRaw.content).2,
              word_count := countWords (flattenContentToText (webExtract msgRaw.content).2),
              created_at := Except.ok msgRaw.created_at }])) := by
  intro msgRaw hno hne
  have hfst : (webExtract msgRaw.content).1 = [] := webExtract_fst_nil _ hno
  have hlen : ¬ (webExtract msgRaw.content).2.length = 0 := by
    intro h0
    exact hne (List.length_eq_zero.mp h0)
  have hlen' : (webExtract msgRaw.content).2.length > 0 := Nat.pos_of_ne_zero hlen
  constructor
  · intro hd
    unfold parseMessageWeb
    dsimp only
    rw [hfst]
    have hjoin : String.intercalate "\n\n" ([] : List String) = "" := rfl
    rw [hjoin, if_pos rfl, hd]
    have hcond : ¬(("" : String) ≠ "" ∨ (webExtract msgRaw.content).2.length = 0) := by
      intro hcon
      rcases hcon with hc | hc
      · exact hc rfl
      · exact hlen hc
    rw [if_neg hcond]
  · intro hd
    unfold parseMessageWeb
    dsimp only
    rw [hfst]
    have hjoin : String.intercalate "\n\n" ([] : List String) = "" := rfl
    rw [hjoin, if_pos rfl]
    rw [if_pos (Or.inl hd), if_pos hlen']

/-- Witness for `claude_web_no_text_blocks_spec`: a tool-use-only message
with a truthy top-level text is emitted with bracket-label text. -/
theorem claude_web_no_text_blocks_spec_witness :
    parseMessageWeb
        { uuid := "u1", sender := "assistant", created_at := "c",
          content := [{ type := "tool_use", name := some "t" }],
          text := some "fallback" } =
      [{ source_id := "u1", role := webRole "assistant",
         content := (webExtract [({ type := "tool_use", name := some "t" } : WebBlock)]).2,
         text := flattenContentToText
           (webExtract [({ type := "tool_use", name := some "t" } : WebBlock)]).2,
         word_count := countWords (flattenContentToText
           (webExtract [({ type := "tool_use", name := some "t" } : WebBlock)]).2),
         created_at := Except.ok "c" }] :=
  (claude_web_no_text_blocks_spec _ (by decide) (by decide)).2 (by decide)

/-! ### Canonical roles (C7) -/

theorem nodeMessage_role (conv : RawChatGPTConversation) (node : RawNode)
    (m : CanonicalMessage) (h : nodeMessage conv node = some m) :
    m.role ∈ canonicalRoles := by
  unfold nodeMessage at h
  rcases hm : node.message with _ | msg <;> rw [hm] at h
  · exact absurd h (by simp)
  · dsimp only at h
    split at h
    · rename_i hrole
      split at h
      · exact absurd h (by simp)
      · injection h with h'
        subst h'
        simpa [canonicalRoles] using hrole
    · exact absurd h (by simp)

theorem parseConversation_messages (conv : RawChatGPTConversation) (fuel : Nat)
    (c : CanonicalConversation) (h : parseConversation conv fuel = some c) :
    c.messages = (linearizeDAG conv.mapping fuel).filterMap (nodeMessage conv) := by
  unfold parseConversation at h
  dsimp only at h
  by_cases h1 : (linearizeDAG conv.mapping fuel).length = 0
  · rw [if_pos h1] at h
    exact absurd h (by simp)
  · rw [if_neg h1] at h
    by_cases h2 : ((linearizeDAG conv.mapping fuel).filterMap (nodeMessage conv)).length = 0
    · rw [if_pos h2] at h
      exact absurd h (by simp)
    · rw [if_neg h2] at h
      injection h with h'
      subst h'
      rfl

theorem recordMessages_role (r : JsonlRecord) (m : CanonicalMessage)
    (h : m ∈ recordMessages r) : m.role = "user" ∨ m.role = "assistant" := by
  unfold recordMessages at h
  split at h
  · rcases hu : parseUserRecord r with _ | m' <;> rw [hu] at h
    · simp at h
    · rcases List.mem_singleton.mp h with rfl
      left
      unfold parseUserRecord at hu
      rcases hr : r.message with _ | mo <;> rw [hr] at hu
      · exact absurd hu (by simp)
      · dsimp only at hu
        split at hu
        · exact absurd hu (by simp)
        · injection hu with h'
          subst h'
          rfl
  · split at h
    · right
      unfold parseAssistantRecord at h
      rcases hr : r.message with _ | mo <;> rw [hr] at h
      · simp at h
      · dsimp only at h
        rcases hc : mo.content with s | blocks | _ <;> rw [hc] at h <;> dsimp only at h
        · simp at h
        · split at h
          · simp at h
          · rcases List.mem_singleton.mp h with rfl
            rfl
        · simp at h
    · simp at h

theorem parseSessionCC_messages (records : List JsonlRecord) (sid pp : String)
    (c : CanonicalConversation) (h : parseSessionCC records sid pp = some c) :
    c.messages = records.flatMap recordMessages := by
  unfold parseSessionCC at h
  dsimp only at h
  by_cases h1 : records.length = 0
  · rw [if_pos h1] at h
    exact absurd h (by simp)
  · rw [if_neg h1] at h
    by_cases h2 : (records.flatMap recordMessages).length = 0
    · rw [if_pos h2] at h
      exact absurd h (by simp)
    · rw [if_neg h2] at h
      injection h with h'
      subst h'
      rfl

theorem parseSessionCW_messages (main : List JsonlRecord) (subs : List (List JsonlRecord))
    (sid pp : String) (c : CanonicalConversation)
    (h : parseSessionCW main subs sid pp = some c) :
    c.messages = (mergeMessages main subs).map Prod.fst := by
  unfold parseSessionCW at h
  dsimp only at h
  by_cases h1 : main.length = 0
  · rw [if_pos h1] at h
    exact absurd h (by simp)
  · rw [if_neg h1] at h
    by_cases h2 : ((mergeMessages main subs).map Prod.fst).length = 0
    · rw [if_pos h2] at h
      exact absurd h (by simp)
    · rw [if_neg h2] at h
      injection h with h'
      subst h'
      rfl

theorem processTagged_role (rs : List JsonlRecord) (b : Bool)
    (p : CanonicalMessage × String) (h : p ∈ processTagged rs b) :
    p.1.role = "user" ∨ p.1.role = "assistant" := by
  rcases List.mem_flatMap.mp h with ⟨r, _, hpr⟩
  rcases List.mem_map.mp hpr with ⟨m', hm', rfl⟩
  have hrole' := recordMessages_role r m' hm'
  cases b
  · simpa using hrole'
  · simpa using hrole'

theorem mergeMessages_mem_role (main : List JsonlRecord) (subs : List (List JsonlRecord))
    (m : CanonicalMessage) (h : m ∈ (mergeMessages main subs).map Prod.fst) :
    m.role = "user" ∨ m.role = "assistant" := by
  rcases List.mem_map.mp h with ⟨p, hp, rfl⟩
  have hp' : p ∈ processTagged main false ++ subs.flatMap (fun s => processTagged s true) :=
    (sortByKey_perm _ _).mem_iff.mp hp
  rcases List.mem_append.mp hp' with hm | hs
  · exact processTagged_role main false p hm
  · rcases List.mem_flatMap.mp hs with ⟨s, _, hs'⟩
    exact processTagged_role s true p hs'

theorem parseMessageWeb_role (mr : RawClaudeMessage) (m : CanonicalMessage)
    (h : m ∈ parseMessageWeb mr) : m.role = webRole mr.sender := by
  unfold parseMessageWeb at h
  dsimp only at h
  split at h
  · split at h
    · rcases List.mem_singleton.mp h with rfl
      rfl
    · simp at h
  · split at h
    · rcases List.mem_singleton.mp h with rfl
      rfl
    · simp at h

theorem parseConversationWeb_messages (conv : RawClaudeConversation)
    (c : CanonicalConversation) (h : parseConversationWeb conv = some c) :
    c.messages = conv.chat_messages.flatMap parseMessageWeb := by
  unfold parseConversationWeb at h
  dsimp only at h
  by_cases h1 : (conv.chat_messages.flatMap parseMessageWeb).length = 0
  · rw [if_pos h1] at h
    exact absurd h (by simp)
  · rw [if_neg h1] at h
    injection h with h'
    subst h'
    rfl

/-- C7 fails as stated for Claude-Web: a sender outside the canonical set
passes through verbatim, so the emitted role is not one of the four
canonical roles. -/
theorem claude_web_role_passthrough_not_canonical :
    (parseMessageWeb
      { uuid := "u2", sender := "bot", created_at := "c",
        content := [{ type := "text", text := some "hi" }] }).map (fun m => m.role) =
      ["bot"] ∧
    ("bot" : String) ∉ canonicalRoles := by
  refine ⟨by decide, by decide⟩

/-- C7 (amended): every message of the ChatGPT, Claude-Code and Cowork
adapters carries one of the four canonical roles; for Claude-Web, `human`
maps to `user` and every other truthy sender passes through verbatim, so
the canonical-role invariant holds exactly when every sender is `human`
or already canonical. -/
theorem roles_canonical_spec :
    (∀ (conv : RawChatGPTConversation) (fuel : Nat) (c : CanonicalConversation),
      parseConversation conv fuel = some c → ∀ m ∈ c.messages, m.role ∈ canonicalRoles) ∧
    (∀ (records : List JsonlRecord) (sid pp : String) (c : CanonicalConversation),
      parseSessionCC records sid pp = some c → ∀ m ∈ c.messages, m.role ∈ canonicalRoles) ∧
    (∀ (main : List JsonlRecord) (subs : List (List JsonlRecord)) (sid pp : String)
        (c : CanonicalConversation), parseSessionCW main subs sid pp = some c →
      ∀ m ∈ c.messages, m.role ∈ canonicalRoles) ∧
    (∀ mr : RawClaudeMessage, mr.sender = "human" →
      ∀ m ∈ parseMessageWeb mr, m.role = "user") ∧
    (∀ mr : RawClaudeMessage, mr.sender ≠ "human" → mr.sender ≠ "" →
      ∀ m ∈ parseMessageWeb mr, m.role = mr.sender) ∧
    (∀ (conv : RawClaudeConversation) (c : CanonicalConversation),
      parseConversationWeb conv = some c →
      (∀ mr ∈ conv.chat_messages, mr.sender = "human" ∨ mr.sender ∈ canonicalRoles) →
      ∀ m ∈ c.messages, m.role ∈ canonicalRoles) := by
  refine ⟨?_, ?_, ?_, ?_, ?_, ?_⟩
  · intro conv fuel c h m hm
    rw [parseConversation_messages conv fuel c h] at hm
    rcases List.mem_filterMap.mp hm with ⟨node, _, hnode⟩
    exact nodeMessage_role conv node m hnode
  · intro records sid pp c h m hm
    rw [parseSessionCC_messages records sid pp c h] at hm
    rcases List.mem_flatMap.mp hm with ⟨r, _, hr⟩
    rcases recordMessages_role r m hr with h' | h' <;> rw [h'] <;> simp [canonicalRoles]
  · intro main subs sid pp c h m hm
    rw [parseSessionCW_messages main subs sid pp c h] at hm
    rcases mergeMessages_mem_role main subs m hm with h' | h' <;> rw [h'] <;>
      simp [canonicalRoles]
  · intro mr hs m hm
    have hw : webRole mr.sender = "user" := by rw [hs]; rfl
    rw [parseMessageWeb_role mr m hm, hw]
  · intro mr hs hs' m hm
    have hw : webRole mr.sender = mr.sender := by
      unfold webRole
      dsimp only
      rw [if_neg hs', if_neg hs]
    rw [parseMessageWeb_role mr m hm, hw]
  · intro conv c h hsenders m hm
    rw [parseConversationWeb_messages conv c h] at hm
    rcases List.mem_flatMap.mp hm with ⟨mr, hmr, hm'⟩
    rw [parseMessageWeb_role mr m hm']
    rcases hsenders mr hmr with hh | hcanon
    · have hw : webRole mr.sender = "user" := by rw [hh]; rfl
      rw [hw]
      simp [canonicalRoles]
    · have hne : mr.sender ≠ "" := by
        intro h0
        rw [h0] at hcanon
        simp [canonicalRoles] at hcanon
      by_cases hh : mr.sender = "human"
      · have hw : webRole mr.sender = "user" := by rw [hh]; rfl
        rw [hw]
        simp [canonicalRoles]
      · have hw : webRole mr.sender = mr.sender := by
          unfold webRole
          dsimp only
          rw [if_neg hne, if_neg hh]
        rw [hw]
        exact hcanon

/-- Witness for `roles_canonical_spec`: a `human`-sender message maps to
the `user` role. -/
theorem roles_canonical_spec_witness :
    (∀ m ∈ parseMessageWeb
      { uuid := "h1", sender := "human", created_at := "c",
        content := [{ type := "text", text := some "hi" }] }, m.role = "user") ∧
    (parseMessageWeb
      { uuid := "h1", sender := "human", created_at := "c",
        content := [{ type := "text", text := some "hi" }] }).map (fun m => m.role) =
      ["user"] :=
  ⟨roles_canonical_spec.2.2.2.1 _ rfl, by decide⟩

/-! ### Conversation aggregates and non-emptiness (C8) -/

/-- C8: for each of the four adapters, an emitted conversation's
`message_count` is the length of its message list, its `total_words` is
the sum of its messages' word counts, and its message list is non-empty
(empty conversations come back as `null` and are never emitted). -/
theorem aggregates_spec :
    (∀ (conv : RawChatGPTConversation) (fuel : Nat) (c : CanonicalConversation),
      parseConversation conv fuel = some c →
      c.message_count = c.messages.length ∧
      c.total_words = (c.messages.map (fun m => m.word_count)).sum ∧
      c.messages ≠ []) ∧
    (∀ (conv : RawClaudeConversation) (c : CanonicalConversation),
      parseConversationWeb conv = some c →
      c.message_count = c.messages.length ∧
      c.total_words = (c.messages.map (fun m => m.word_count)).sum ∧
      c.messages ≠ []) ∧
    (∀ (records : List JsonlRecord) (sid pp : String) (c : CanonicalConversation),
      parseSessionCC records sid pp = some c →
      c.message_count = c.messages.length ∧
      c.total_words = (c.messages.map (fun m => m.word_count)).sum ∧
      c.messages ≠ []) ∧
    (∀ (main : List JsonlRecord) (subs : List (List JsonlRecord)) (sid pp : String)
        (c : CanonicalConversation),
      parseSessionCW main subs sid pp = some c →
      c.message_count = c.messages.length ∧
      c.total_words = (c.messages.map (fun m => m.word_count)).sum ∧
      c.messages ≠ []) := by
  refine ⟨?_, ?_, ?_, ?_⟩
  · intro conv fuel c h
    unfold parseConversation at h
    dsimp only at h
    by_cases h1 : (linearizeDAG conv.mapping fuel).length = 0
    · rw [if_pos h1] at h
      exact absurd h (by simp)
    · rw [if_neg h1] at h
      by_cases h2 : ((linearizeDAG conv.mapping fuel).filterMap (nodeMessage conv)).length = 0
      · rw [if_pos h2] at h
        exact absurd h (by simp)
      · rw [if_neg h2] at h
        injection h with h'
        subst h'
        exact ⟨rfl, rfl, fun hnil => h2 (by rw [List.length_eq_zero]; exact hnil)⟩
  · intro conv c h
    unfold parseConversationWeb at h
    dsimp only at h
    by_cases h1 : (conv.chat_messages.flatMap parseMessageWeb).length = 0
    · rw [if_pos h1] at h
      exact absurd h (by simp)
    · rw [if_neg h1] at h
      injection h with h'
      subst h'
      exact ⟨rfl, rfl, fun hnil => h1 (by rw [List.length_eq_zero]; exact hnil)⟩
  · intro records sid pp c h
    unfold parseSessionCC at h
    dsimp only at h
    by_cases h1 : records.length = 0
    · rw [if_pos h1] at h
      exact absurd h (by simp)
    · rw [if_neg h1] at h
      by_cases h2 : (records.flatMap recordMessages).length = 0
      · rw [if_pos h2] at h
        exact absurd h (by simp)
      · rw [if_neg h2] at h
        injection h with h'
        subst h'
        exact ⟨rfl, rfl, fun hnil => h2 (by rw [List.length_eq_zero]; exact hnil)⟩
  · intro main subs sid pp c h
    unfold parseSessionCW at h
    dsimp only at h
    by_cases h1 : main.length = 0
    · rw [if_pos h1] at h
      exact absurd h (by simp)
    · rw [if_neg h1] at h
      by_cases h2 : ((mergeMessages main subs).map Prod.fst).length = 0
      · rw [if_pos h2] at h
        exact absurd h (by simp)
      · rw [if_neg h2] at h
        injection h with h'
        subst h'
        exact ⟨rfl, rfl, fun hnil => h2 (by rw [List.length_eq_zero]; exact hnil)⟩

/-- Witness for `aggregates_spec` at the concrete fork conversation. -/
theorem aggregates_spec_witness :
    ∃ c : CanonicalConversation, parseConversation forkConv 10 = some c ∧
      c.message_count = c.messages.length ∧
      c.total_words = (c.messages.map (fun m => m.word_count)).sum ∧
      c.messages ≠ [] := by
  rcases hc : parseConversation forkConv 10 with _ | c
  · have : (parseConversation forkConv 10).isSome = true := by decide
    rw [hc] at this
    exact absurd this (by simp)
  · exact ⟨c, rfl, aggregates_spec.1 forkConv 10 c hc⟩

/-! ### Provider detection order (C5) -/

/-- C5 fails as stated: `exFS` satisfies both the Cowork and Claude-Code
predicates, yet `detectProvider` classifies it as ChatGPT, because the
ChatGPT adapter is probed before Cowork and its predicate also matches. -/
theorem detect_order_counterexample :
    coworkDetect exFS "p" = true ∧ claudeCodeDetect exFS "p" = true ∧
    detectProvider exFS "p" = some "chatgpt" ∧
    detectProvider exFS "p" ≠ some "cowork" := by
  refine ⟨by decide, by decide, by decide, by decide⟩

/-- C5 (amended): on a path satisfying both the Cowork and Claude-Code
predicates, `detectProvider` never returns Claude-Code (Cowork is probed
first among the two), and it returns Cowork provided neither the ChatGPT
nor the Claude-Web predicate matches the path (those two are probed even
earlier). -/
theorem detectProvider_spec :
    ∀ (fs : FS) (path : String),
      coworkDetect fs path = true → claudeCodeDetect fs path = true →
      (detectProvider fs path ≠ some "claude-code" ∧
       (chatgptDetect fs path = false → claudeWebDetect fs path = false →
         detectProvider fs path = some "cowork")) := by
  intro fs path hcw _
  unfold detectProvider
  constructor
  · by_cases h1 : chatgptDetect fs path
    · simp [h1]
    · by_cases h2 : claudeWebDetect fs path
      · simp [h1, h2]
      · simp [h1, h2, hcw]
  · intro h1 h2
    simp [h1, h2, hcw]

/-- Witness for `detectProvider_spec`: a directory with both a Cowork
`-sessions-` slug and a plain Claude-Code slug (and no `conversations.json`)
classifies as Cowork. -/
theorem detectProvider_spec_witness :
    detectProvider exFS2 "q" = some "cowork" :=
  (detectProvider_spec exFS2 "q" (by decide) (by decide)).2 (by decide) (by decide)

end ContextCarry
